import Mathlib

/-!
The driver `pubsub.c`: a single-slot, multi-subscriber broadcast channel.

Shallow embedding of `src/eg_01_Publisher_Subscriber/pubsub.c`.

The driver's globals (`message`, `buff_len`, `reader_list`) form the `State`.
Each file operation (`device_open`, `device_release`, `device_read`,
`device_write`) is one function from the state before the call to the state
after it, together with what the caller observes.  Every access to the globals
sits between `mutex_lock` and `mutex_unlock`, so one call is one atomic step.

What the environment decides is an explicit argument:

* `kmalloc_ok`  whether `kmalloc` returned a context;
* `sig`         whether a signal ends the caller's interruptible sleep (on the
                mutex or on a wait queue), which makes the call return
                `-ERESTARTSYS`;
* `nonblock`    the `O_NONBLOCK` bit of `file->f_flags`;
* the user buffer: the readable bytes behind `buf` for `device_write`, the
  number of writable bytes behind `buf` for `device_read`.

A blocking call that finds its `while` condition true leaves the critical
section and sleeps in `wait_event_interruptible`; this is the outcome
`Outcome.sleeping`.  When it is woken it takes the mutex and tests the loop
condition again, which is the same function applied to the state of that
moment.

Integers: `buff_len`, `readers_served`, `reader_count` are C `int`, `len` is
`size_t`, the return value is `ssize_t`.  `buff_len` is an `Int`; the
conversions between the three types are explicit.  The two counters are `Nat`
(a registry holds fewer than `2^31` contexts).
-/

namespace PubSub

/-- One `char` of the message buffer. -/
abbrev Byte := Fin 256

/-- Capacity of the slot: `#define BUF_LEN 1024`. -/
def BUF_LEN : Nat := 1024

/-- Errno: resource temporarily unavailable. -/
def EAGAIN : Int := 11
/-- Errno: out of memory. -/
def ENOMEM : Int := 12
/-- Errno: bad address. -/
def EFAULT : Int := 14
/-- Errno (kernel internal): restart the system call. -/
def ERESTARTSYS : Int := 512

/-- Conversion `int -> size_t` (64-bit `unsigned long`), as in `len > buff_len`. -/
def int_to_size_t (x : Int) : Nat := (x % 18446744073709551616).toNat

/-- Conversion `size_t -> int`, as in `buff_len = len`. -/
def size_t_to_int (n : Nat) : Int :=
  if n % 4294967296 < 2147483648 then ((n % 4294967296 : Nat) : Int)
  else ((n % 4294967296 : Nat) : Int) - 4294967296

/-- Conversion `size_t -> ssize_t`, as in `retval = len`. -/
def size_t_to_ssize_t (n : Nat) : Int :=
  if n % 18446744073709551616 < 9223372036854775808 then ((n % 18446744073709551616 : Nat) : Int)
  else ((n % 18446744073709551616 : Nat) : Int) - 18446744073709551616

/-- The `struct reader_ctx` of one open file.  `file` is the identity of the
`struct file` the context belongs to (`file->private_data` points back to
it); the list linkage is the position in `reader_list`. -/
structure reader_ctx where
  file : Nat
  has_read : Bool
deriving DecidableEq, Repr

/-- The globals of the driver. -/
structure State where
  message : List Byte
  buff_len : Int
  reader_list : List reader_ctx
deriving DecidableEq, Repr

/-- The state after module load: zeroed buffer, `buff_len = 0`, empty list. -/
def init : State :=
  { message := List.replicate BUF_LEN 0, buff_len := 0, reader_list := [] }

/-- What a caller gets back from one atomic pass through a file operation. -/
inductive Outcome where
  /-- The call returned this value. -/
  | ret (retval : Int)
  /-- The caller released the mutex and sleeps in `wait_event_interruptible`. -/
  | sleeping
deriving DecidableEq, Repr

/-- The state after a call and everything the call did besides. -/
structure Result where
  state : State
  out : Outcome
  /-- Bytes `copy_to_user` stored in the caller's buffer. -/
  ubuf : List Byte
  /-- Whether `wake_up_interruptible(&read_queue)` was called. -/
  wake_read : Bool
  /-- Whether `wake_up_interruptible(&write_queue)` was called. -/
  wake_write : Bool
deriving DecidableEq, Repr

/-- The context `file->private_data` points to. -/
def find_ctx (l : List reader_ctx) (file : Nat) : Option reader_ctx :=
  l.find? (fun c => c.file == file)

/-- The kernel's `list_del(&ctx->list)` for the context of `file`. -/
def list_del (file : Nat) (l : List reader_ctx) : List reader_ctx :=
  l.eraseP (fun c => c.file == file)

/-- The assignment `ctx->has_read = true` for the context of `file`. -/
def set_has_read (file : Nat) : List reader_ctx → List reader_ctx
  | [] => []
  | c :: l => if c.file == file then { c with has_read := true } :: l
              else c :: set_has_read file l

/-- The loop of `reset_all_reader_flags`. -/
def reset_all_reader_flags (l : List reader_ctx) : List reader_ctx :=
  l.map (fun ctx => { ctx with has_read := false })

/-- The counting loop shared by `device_read` and `device_release`:
`list_for_each_entry(tmp, &reader_list, list) { reader_count++; if
(tmp->has_read) readers_served++; }`, started with `readers_served = served0`
and `reader_count = 0`.  Returns `(readers_served, reader_count)`. -/
def count_readers (served0 : Nat) (l : List reader_ctx) : Nat × Nat :=
  l.foldl (fun acc tmp => (if tmp.has_read then acc.1 + 1 else acc.1, acc.2 + 1)) (served0, 0)

/-- The kernel's `copy_from_user(dst, from, n)`; `src` holds the readable bytes
behind `from`.  Copies what is readable, zero-fills the rest of the `n` bytes
of the destination, and returns the new destination with the number of bytes
that could not be copied. -/
def copy_from_user (dst : List Byte) (src : List Byte) (n : Nat) : List Byte × Nat :=
  (src.take n ++ List.replicate (n - src.length) 0 ++ dst.drop n, n - src.length)

/-- The kernel's `copy_to_user(dst, from, n)`; `ucap` is the number of writable
bytes behind `dst`.  Returns the bytes stored in user memory with the number of
bytes that could not be copied. -/
def copy_to_user (ucap : Nat) (src : List Byte) (n : Nat) : List Byte × Nat :=
  (src.take (min n ucap), n - ucap)

/-- `device_open`: register a context with `has_read = false` at the head of
`reader_list`; `-ENOMEM` when `kmalloc` fails. -/
def device_open (s : State) (file : Nat) (kmalloc_ok : Bool) : Result :=
  if !kmalloc_ok then
    { state := s, out := .ret (-ENOMEM), ubuf := [], wake_read := false, wake_write := false }
  else
    let ctx : reader_ctx := { file := file, has_read := false }
    { state := { s with reader_list := ctx :: s.reader_list },
      out := .ret 0, ubuf := [], wake_read := false, wake_write := false }

/-- `device_release`.  `none` when `file` has no context (the VFS releases
only files it opened). -/
def device_release (s : State) (file : Nat) : Option Result :=
  match find_ctx s.reader_list file with
  | none => none
  | some ctx =>
    let l := list_del file s.reader_list
    let all_read : Bool :=
      if !ctx.has_read && decide (s.buff_len > 0) then
        let counts := count_readers 1 l
        decide (counts.1 ≥ counts.2)
      else false
    some { state := { s with reader_list := l,
                             buff_len := if all_read then 0 else s.buff_len },
           out := .ret 0, ubuf := [], wake_read := false, wake_write := all_read }

/-- `device_read`.  `none` when `file` has no context. -/
def device_read (s : State) (file : Nat) (ucap : Nat) (len : Nat)
    (nonblock : Bool) (sig : Bool) : Option Result :=
  match find_ctx s.reader_list file with
  | none => none
  | some ctx =>
    if sig then
      some { state := s, out := .ret (-ERESTARTSYS), ubuf := [],
             wake_read := false, wake_write := false }
    else if s.buff_len == 0 || ctx.has_read then
      if nonblock then
        some { state := s, out := .ret (-EAGAIN), ubuf := [],
               wake_read := false, wake_write := false }
      else
        some { state := s, out := .sleeping, ubuf := [],
               wake_read := false, wake_write := false }
    else
      let len := if len > int_to_size_t s.buff_len then int_to_size_t s.buff_len else len
      let copied := copy_to_user ucap s.message len
      if copied.2 ≠ 0 then
        some { state := s, out := .ret (-EFAULT), ubuf := copied.1,
               wake_read := false, wake_write := false }
      else
        let l := set_has_read file s.reader_list
        let counts := count_readers 0 l
        let all_read : Bool := decide (counts.1 ≥ counts.2)
        some { state := { s with reader_list := l,
                                 buff_len := if all_read then 0 else s.buff_len },
               out := .ret (size_t_to_ssize_t len), ubuf := copied.1,
               wake_read := false, wake_write := all_read }

/-- `device_write`.  `file` is used for its `O_NONBLOCK` flag only, which is
the argument `nonblock`. -/
def device_write (s : State) (ubuf : List Byte) (len : Nat)
    (nonblock : Bool) (sig : Bool) : Result :=
  if sig then
    { state := s, out := .ret (-ERESTARTSYS), ubuf := [], wake_read := false, wake_write := false }
  else if s.buff_len > 0 then
    if nonblock then
      { state := s, out := .ret (-EAGAIN), ubuf := [], wake_read := false, wake_write := false }
    else
      { state := s, out := .sleeping, ubuf := [], wake_read := false, wake_write := false }
  else
    let len := if len > BUF_LEN then BUF_LEN else len
    let copied := copy_from_user s.message ubuf len
    if copied.2 ≠ 0 then
      { state := { s with message := copied.1 }, out := .ret (-EFAULT), ubuf := [],
        wake_read := false, wake_write := false }
    else
      { state := { s with message := copied.1, buff_len := size_t_to_int len,
                          reader_list := reset_all_reader_flags s.reader_list },
        out := .ret (size_t_to_ssize_t len), ubuf := [],
        wake_read := true, wake_write := false }

/-- The four operations of the channel with the arguments the kernel and the
environment supply. -/
inductive Call where
  /-- An `open(2)` of the device: `device_open`. -/
  | subscribe (file : Nat) (kmalloc_ok : Bool)
  /-- The last `close(2)` of an open file: `device_release`. -/
  | unsubscribe (file : Nat)
  /-- A `read(2)`: `device_read`. -/
  | consume (file : Nat) (ucap : Nat) (len : Nat) (nonblock : Bool) (sig : Bool)
  /-- A `write(2)`: `device_write`. -/
  | publish (ubuf : List Byte) (len : Nat) (nonblock : Bool) (sig : Bool)
deriving DecidableEq, Repr

/-- One atomic step.  `none` for a call the VFS cannot issue: an open with a
`struct file` that is still open, a read or release of a file without a
context. -/
def exec (s : State) : Call → Option Result
  | .subscribe file kmalloc_ok =>
    if (find_ctx s.reader_list file).isSome then none
    else some (device_open s file kmalloc_ok)
  | .unsubscribe file => device_release s file
  | .consume file ucap len nonblock sig => device_read s file ucap len nonblock sig
  | .publish ubuf len nonblock sig => some (device_write s ubuf len nonblock sig)

/-- A call together with what it gave back. -/
structure Event where
  call : Call
  out : Outcome
deriving DecidableEq, Repr

/-- Run a sequence of calls; the final state and the log of events. -/
def run (s : State) : List Call → Option (State × List Event)
  | [] => some (s, [])
  | c :: cs =>
    match exec s c with
    | none => none
    | some r =>
      match run r.state cs with
      | none => none
      | some (s', evs) => some (s', { call := c, out := r.out } :: evs)

/-- The states the driver can be in: `init` and what `exec` makes of them. -/
inductive Reachable : State → Prop where
  | start : Reachable init
  | step {s : State} {r : Result} (c : Call) :
      Reachable s → exec s c = some r → Reachable r.state

/-- The `struct file` identities of the registered contexts. -/
def files (s : State) : List Nat := s.reader_list.map (fun c => c.file)

/-- `consumed_count`: registered contexts with `has_read` set. -/
def consumed_count (l : List reader_ctx) : Nat := l.countP (fun c => c.has_read)

/-- `total_count`: registered contexts. -/
def total_count (l : List reader_ctx) : Nat := l.length

/-- The data model: a buffer of `BUF_LEN` bytes, `0 <= buff_len <= BUF_LEN`,
one context per open file. -/
def State.inv (s : State) : Prop :=
  s.message.length = BUF_LEN ∧ 0 ≤ s.buff_len ∧ s.buff_len ≤ BUF_LEN ∧ (files s).Nodup

/-- A call succeeded: it returned, and not an errno. -/
def Outcome.ok : Outcome → Bool
  | .ret retval => decide (0 ≤ retval)
  | .sleeping => false

/-- The call is a `device_read`. -/
def Call.is_consume : Call → Bool
  | .consume _ _ _ _ _ => true
  | _ => false

/-- The event is a successful `device_write`. -/
def Event.publish_ok (e : Event) : Bool :=
  match e.call with
  | .publish _ _ _ _ => e.out.ok
  | _ => false

/-- The event is a successful `device_read` through `file`. -/
def Event.consume_ok (e : Event) (file : Nat) : Bool :=
  match e.call with
  | .consume f _ _ _ _ => f == file && e.out.ok
  | _ => false

/-- Registered contexts with `has_read` clear: subscribers still pending. -/
def pending_count (l : List reader_ctx) : Nat := l.countP (fun c => !c.has_read)

/-- The departure check as `device_release` computes it over the remaining
registry: `readers_served` starts at 1. -/
def literal_departure_check (remaining : List reader_ctx) : Bool :=
  decide ((count_readers 1 remaining).1 ≥ (count_readers 1 remaining).2)

/-- The naive departure check, in the words of the specification:
`consumed_count >= total_count` over the remaining registry. -/
def naive_departure_check (remaining : List reader_ctx) : Bool :=
  decide (consumed_count remaining ≥ total_count remaining)

/-! ## Concrete scenarios -/

/-- The `struct file` of subscriber A. -/
def file_A : Nat := 1

/-- The `struct file` of subscriber B. -/
def file_B : Nat := 2

/-- After module load, A opens the device. -/
def state_A : State := (device_open init file_A true).state

/-- Scenario 2 up to the second write: A opens, `"x"` is written. -/
def scenario2_state : State := (device_write state_A [120] 1 true false).state

/-- Scenario 3: A and B open, `"m"` is written, A reads, B closes. -/
def scenario3_calls : List Call :=
  [.subscribe file_A true, .subscribe file_B true, .publish [109] 1 true false,
   .consume file_A 16 16 true false, .unsubscribe file_B]

/-- A and B have opened the device. -/
def state_AB : State := (device_open state_A file_B true).state

/-- A and B have opened the device and `"m"` was written. -/
def state_AB_m : State := (device_write state_AB [109] 1 true false).state

/-- A and B have opened the device and `"hi"` was written (Scenario 1). -/
def state_AB_hi : State := (device_write state_AB [104, 105] 2 true false).state

/-- The `struct file` of subscriber C. -/
def file_C : Nat := 3

/-- A, B and C have opened the device and `"m"` was written. -/
def state_ABC_m : State :=
  (device_write (device_open state_AB file_C true).state [109] 1 true false).state

/-- A and B open, `"m"` is written, B closes without reading. -/
def departure_calls : List Call :=
  [.subscribe file_A true, .subscribe file_B true, .publish [109] 1 true false,
   .unsubscribe file_B]

/-- Scenario 1 after the write of `"hi"`: A reads, then B reads. -/
def scenario1_reads : List Call :=
  [.consume file_A 16 16 true false, .consume file_B 16 16 true false]

/-- A payload of 1030 bytes, longer than the slot. -/
def payload_1030 : List Byte := List.replicate 1030 7

/-- The context of `file` is registered and has `has_read` set. -/
def flagged (s : State) (file : Nat) : Prop :=
  ∃ ctx, find_ctx s.reader_list file = some ctx ∧ ctx.has_read = true

/-- Scenario 1 run to its end: the final state and the events of the reads. -/
def scenario1_end : State × List Event := (run state_AB_hi scenario1_reads).getD (init, [])

/-- Scenario 3 just before B closes: `"m"` is written and A has read it. -/
def state_AB_m_read : State :=
  ((device_read state_AB_m file_A 16 16 true false).map (fun r => r.state)).getD init

/-- After `"hi"` is written, A reads and then C opens the device. -/
def once_calls : List Call := [.consume file_A 16 16 true false, .subscribe file_C true]

/-- The final state and the events of `once_calls` run from `state_AB_hi`. -/
def once_end : State × List Event := (run state_AB_hi once_calls).getD (init, [])

/-- Scenario 2 state joined by B: A opens, `"x"` is written, then B opens. -/
def state_A_x_B : State := (device_open scenario2_state file_B true).state

/-- The context of `file`, if registered, has `has_read` clear. -/
def unflagged (s : State) (file : Nat) : Prop :=
  ∀ ctx, find_ctx s.reader_list file = some ctx → ctx.has_read = false

/-- After `"hi"` is written, B reads and then C opens the device. -/
def fresh_calls : List Call := [.consume file_B 16 16 true false, .subscribe file_C true]

/-- The final state and the events of `fresh_calls` run from `state_AB_hi`. -/
def fresh_end : State × List Event := (run state_AB_hi fresh_calls).getD (init, [])

/-- The calls the VFS can issue in state `s`: a `write(2)` needs an open file
of the device, and every open file has a context in `reader_list`. -/
def Call.through_open_file (s : State) : Call → Bool
  | .publish _ _ _ _ => !s.reader_list.isEmpty
  | _ => true

/-- The states the driver reaches when every write comes through an open file. -/
inductive ReachableFile : State → Prop where
  | start : ReachableFile init
  | step {s : State} {r : Result} (c : Call) :
      ReachableFile s → c.through_open_file s = true → exec s c = some r →
      ReachableFile r.state

/-! ## Lemmas on the helpers -/

theorem count_readers_eq (served0 : Nat) (l : List reader_ctx) :
    count_readers served0 l = (served0 + consumed_count l, total_count l) := by
  have key : ∀ (l : List reader_ctx) (a b : Nat),
      l.foldl (fun acc tmp => (if tmp.has_read then acc.1 + 1 else acc.1, acc.2 + 1)) (a, b)
        = (a + l.countP (fun c => c.has_read), b + l.length) := by
    intro l
    induction l with
    | nil => intro a b; simp
    | cons c l ih =>
      intro a b
      simp only [List.foldl_cons, ih, List.countP_cons, List.length_cons]
      cases c.has_read <;> simp <;> omega
  simpa [count_readers, consumed_count, total_count] using key l served0 0

theorem find_ctx_some {l : List reader_ctx} {file : Nat} {ctx : reader_ctx}
    (h : find_ctx l file = some ctx) : ctx ∈ l ∧ ctx.file = file := by
  unfold find_ctx at h
  refine ⟨List.mem_of_find?_eq_some h, ?_⟩
  have := List.find?_some h
  simpa using this

theorem find_ctx_isSome_iff (l : List reader_ctx) (file : Nat) :
    (find_ctx l file).isSome = true ↔ file ∈ l.map (fun c => c.file) := by
  unfold find_ctx
  simp [List.find?_isSome]

theorem set_has_read_eq_map (file : Nat) (l : List reader_ctx)
    (hnd : (l.map (fun c => c.file)).Nodup) :
    set_has_read file l
      = l.map (fun c => if c.file = file then { c with has_read := true } else c) := by
  induction l with
  | nil => rfl
  | cons c l ih =>
    simp only [List.map_cons, List.nodup_cons] at hnd
    by_cases hc : c.file = file
    · have hrest : l.map (fun c => if c.file = file then { c with has_read := true } else c) = l := by
        conv_rhs => rw [← List.map_id l]
        apply List.map_congr_left
        intro d hd
        have : d.file ≠ file := by
          intro hdf
          apply hnd.1
          rw [hc, ← hdf]
          exact List.mem_map_of_mem _ hd
        simp [this]
      simp [set_has_read, hc, hrest]
    · simp [set_has_read, hc, ih hnd.2]

theorem list_del_eq_filter (file : Nat) (l : List reader_ctx)
    (hnd : (l.map (fun c => c.file)).Nodup) :
    list_del file l = l.filter (fun c => c.file != file) := by
  induction l with
  | nil => rfl
  | cons c l ih =>
    simp only [List.map_cons, List.nodup_cons] at hnd
    by_cases hc : c.file = file
    · have hrest : l.filter (fun c => c.file != file) = l := by
        apply List.filter_eq_self.2
        intro d hd
        have : d.file ≠ file := by
          intro hdf
          apply hnd.1
          rw [hc, ← hdf]
          exact List.mem_map_of_mem _ hd
        simp [this]
      simp [list_del, List.eraseP_cons, hc, hrest]
    · have := ih hnd.2
      unfold list_del at this
      simp [list_del, List.eraseP_cons, hc, this]

theorem int_to_size_t_eq {x : Int} (h0 : 0 ≤ x) (h1 : x ≤ BUF_LEN) :
    int_to_size_t x = x.toNat := by
  unfold int_to_size_t
  simp only [BUF_LEN] at h1
  omega

theorem size_t_to_int_eq {n : Nat} (h : n ≤ BUF_LEN) : size_t_to_int n = n := by
  unfold size_t_to_int
  simp only [BUF_LEN] at h
  split <;> omega

theorem size_t_to_ssize_t_eq {n : Nat} (h : n ≤ BUF_LEN) : size_t_to_ssize_t n = n := by
  unfold size_t_to_ssize_t
  simp only [BUF_LEN] at h
  split <;> omega

theorem device_read_blocked (s : State) (file ucap len : Nat) (nonblock : Bool)
    (ctx : reader_ctx) (hctx : find_ctx s.reader_list file = some ctx)
    (hel : s.buff_len = 0 ∨ ctx.has_read = true) :
    device_read s file ucap len nonblock false
      = some { state := s, out := if nonblock then .ret (-EAGAIN) else .sleeping,
               ubuf := [], wake_read := false, wake_write := false } := by
  have hb : (s.buff_len == 0 || ctx.has_read) = true := by
    rcases hel with h | h <;> simp [h]
  unfold device_read
  simp only [hctx, hb]
  cases nonblock <;> simp

theorem device_read_go (s : State) (file ucap len : Nat) (nonblock : Bool)
    (ctx : reader_ctx) (hctx : find_ctx s.reader_list file = some ctx)
    (hlen : s.buff_len ≠ 0) (hflag : ctx.has_read = false) :
    device_read s file ucap len nonblock false
      = if min len (int_to_size_t s.buff_len) ≤ ucap then
          some { state := { s with
                    reader_list := set_has_read file s.reader_list,
                    buff_len :=
                      if consumed_count (set_has_read file s.reader_list)
                          ≥ total_count (set_has_read file s.reader_list) then 0
                      else s.buff_len },
                 out := .ret (size_t_to_ssize_t (min len (int_to_size_t s.buff_len))),
                 ubuf := s.message.take (min len (int_to_size_t s.buff_len)),
                 wake_read := false,
                 wake_write := decide (consumed_count (set_has_read file s.reader_list)
                          ≥ total_count (set_has_read file s.reader_list)) }
        else
          some { state := s, out := .ret (-EFAULT),
                 ubuf := s.message.take ucap,
                 wake_read := false, wake_write := false } := by
  have hb : (s.buff_len == 0 || ctx.has_read) = false := by
    simp [hlen, hflag]
  have hm : (if len > int_to_size_t s.buff_len then int_to_size_t s.buff_len else len)
      = min len (int_to_size_t s.buff_len) := by
    split <;> omega
  unfold device_read
  simp only [hctx, hb, hm, copy_to_user, count_readers_eq, Nat.zero_add]
  by_cases hc : min len (int_to_size_t s.buff_len) ≤ ucap
  · have h0 : min len (int_to_size_t s.buff_len) - ucap = 0 := by omega
    have h1 : min (min len (int_to_size_t s.buff_len)) ucap = min len (int_to_size_t s.buff_len) := by
      omega
    simp [hc, h0, h1]
  · have h0 : min len (int_to_size_t s.buff_len) - ucap ≠ 0 := by omega
    have h1 : min (min len (int_to_size_t s.buff_len)) ucap = ucap := by omega
    simp [hc, h0, h1]

theorem find_ctx_set_has_read (file g : Nat) (l : List reader_ctx) :
    find_ctx (set_has_read file l) g
      = if g = file then (find_ctx l file).map (fun c => { c with has_read := true })
        else find_ctx l g := by
  induction l with
  | nil => simp [set_has_read, find_ctx]
  | cons c l ih =>
    unfold find_ctx at ih ⊢
    by_cases hc : c.file = file
    · by_cases hg : g = file
      · simp [set_has_read, hc, hg, List.find?_cons]
      · have : ¬ file = g := fun h => hg h.symm
        simp [set_has_read, hc, hg, List.find?_cons, this]
    · by_cases hg : g = file
      · subst hg
        simp [set_has_read, hc, List.find?_cons, ih]
      · simp only [set_has_read, hc, hg, List.find?_cons, ih, beq_iff_eq, if_false]

theorem find_ctx_list_del (d g : Nat) (l : List reader_ctx) (hg : g ≠ d) :
    find_ctx (list_del d l) g = find_ctx l g := by
  induction l with
  | nil => simp [list_del, find_ctx]
  | cons c l ih =>
    unfold find_ctx list_del at ih ⊢
    by_cases hc : c.file = d
    · have hdg : (d == g) = false := by simpa using fun h => hg h.symm
      simp [List.eraseP_cons, hc, List.find?_cons, hdg]
    · simp [List.eraseP_cons, hc, List.find?_cons, ih]

theorem files_set_has_read (file : Nat) (l : List reader_ctx) :
    (set_has_read file l).map (fun c => c.file) = l.map (fun c => c.file) := by
  induction l with
  | nil => rfl
  | cons c l ih =>
    by_cases hc : c.file = file <;> simp [set_has_read, hc, ih]

theorem length_set_has_read (file : Nat) (l : List reader_ctx) :
    (set_has_read file l).length = l.length := by
  have := congrArg List.length (files_set_has_read file l)
  simpa using this

theorem init_inv : init.inv :=
  ⟨List.length_replicate _ _, Int.le_refl 0, Int.ofNat_nonneg _, List.nodup_nil⟩

theorem ite_zero_bound (b : Prop) [Decidable b] (x : Int) (h0 : 0 ≤ x) (h1 : x ≤ BUF_LEN) :
    0 ≤ (if b then 0 else x) ∧ (if b then 0 else x) ≤ (BUF_LEN : Int) := by
  split
  · exact ⟨Int.le_refl 0, Int.ofNat_nonneg _⟩
  · exact ⟨h0, h1⟩

theorem device_open_inv (s : State) (file : Nat) (kmalloc_ok : Bool) (h : s.inv)
    (hfresh : find_ctx s.reader_list file = none) :
    (device_open s file kmalloc_ok).state.inv := by
  obtain ⟨h1, h2, h3, h4⟩ := h
  cases kmalloc_ok
  · exact ⟨h1, h2, h3, h4⟩
  · refine ⟨h1, h2, h3, ?_⟩
    have hnot : file ∉ s.reader_list.map (fun c => c.file) := by
      rw [← find_ctx_isSome_iff, hfresh]; simp
    simpa [device_open, files] using And.intro hnot h4

theorem device_release_inv (s : State) (file : Nat) (r : Result) (h : s.inv)
    (he : device_release s file = some r) : r.state.inv := by
  obtain ⟨h1, h2, h3, h4⟩ := h
  unfold device_release at he
  split at he
  · exact absurd he (by simp)
  · injection he with he
    subst he
    exact ⟨h1, (ite_zero_bound _ _ h2 h3).1, (ite_zero_bound _ _ h2 h3).2,
      h4.sublist ((List.eraseP_sublist _).map _)⟩

theorem device_read_inv (s : State) (file ucap len : Nat) (nonblock sig : Bool) (r : Result)
    (h : s.inv) (he : device_read s file ucap len nonblock sig = some r) : r.state.inv := by
  obtain ⟨h1, h2, h3, h4⟩ := h
  cases hctx : find_ctx s.reader_list file with
  | none => simp [device_read, hctx] at he
  | some ctx =>
    cases sig with
    | true =>
      simp only [device_read, hctx, if_true] at he
      injection he with he
      subst he
      exact ⟨h1, h2, h3, h4⟩
    | false =>
      by_cases hel : s.buff_len = 0 ∨ ctx.has_read = true
      · rw [device_read_blocked s file ucap len nonblock ctx hctx hel] at he
        injection he with he
        subst he
        exact ⟨h1, h2, h3, h4⟩
      · push_neg at hel
        have hflag : ctx.has_read = false := by simpa using hel.2
        rw [device_read_go s file ucap len nonblock ctx hctx hel.1 hflag] at he
        split at he
        · injection he with he
          subst he
          refine ⟨h1, (ite_zero_bound _ _ h2 h3).1, (ite_zero_bound _ _ h2 h3).2, ?_⟩
          simpa [files, files_set_has_read] using h4
        · injection he with he
          subst he
          exact ⟨h1, h2, h3, h4⟩

theorem device_write_inv (s : State) (ubuf : List Byte) (len : Nat) (nonblock sig : Bool)
    (h : s.inv) : (device_write s ubuf len nonblock sig).state.inv := by
  obtain ⟨h1, h2, h3, h4⟩ := h
  have hm : (if len > BUF_LEN then BUF_LEN else len) = min len BUF_LEN := by
    split <;> omega
  have hle : min len BUF_LEN ≤ BUF_LEN := Nat.min_le_right _ _
  have hlen : (copy_from_user s.message ubuf (min len BUF_LEN)).1.length = BUF_LEN := by
    simp only [copy_from_user, List.length_append, List.length_take, List.length_replicate,
      List.length_drop, h1]
    omega
  unfold device_write
  split
  · exact ⟨h1, h2, h3, h4⟩
  · split
    · split <;> exact ⟨h1, h2, h3, h4⟩
    · simp only [hm]
      split
      · exact ⟨hlen, h2, h3, h4⟩
      · refine ⟨hlen, ?_, ?_, ?_⟩
        · simp only [size_t_to_int_eq hle]; omega
        · simp only [size_t_to_int_eq hle]; omega
        · simpa [files, reset_all_reader_flags, Function.comp_def] using h4

theorem exec_inv (s : State) (c : Call) (r : Result) (h : s.inv) (he : exec s c = some r) :
    r.state.inv := by
  cases c with
  | subscribe file ok =>
    simp only [exec] at he
    split at he
    · exact absurd he (by simp)
    · injection he with he
      subst he
      apply device_open_inv s file ok h
      rename_i hn
      simpa using hn
  | unsubscribe file => exact device_release_inv s file r h he
  | consume file ucap len nb sig => exact device_read_inv s file ucap len nb sig r h he
  | publish ubuf len nb sig =>
    simp only [exec] at he
    injection he with he
    subst he
    exact device_write_inv s ubuf len nb sig h

theorem reachable_inv (s : State) (h : Reachable s) : s.inv := by
  induction h with
  | start => exact init_inv
  | step c _ he ih => exact exec_inv _ c _ ih he

theorem run_cons {s s' : State} {c : Call} {cs : List Call} {evs : List Event}
    (h : run s (c :: cs) = some (s', evs)) :
    ∃ r evs', exec s c = some r ∧ run r.state cs = some (s', evs')
      ∧ evs = { call := c, out := r.out } :: evs' := by
  simp only [run] at h
  cases he : exec s c with
  | none => simp [he] at h
  | some r =>
    simp only [he] at h
    cases hr : run r.state cs with
    | none => simp [hr] at h
    | some p =>
      obtain ⟨t, evs'⟩ := p
      simp only [hr, Option.some.injEq, Prod.mk.injEq] at h
      exact ⟨r, evs', rfl, by rw [hr, h.1], h.2.symm⟩

theorem run_length {s s' : State} {cs : List Call} {evs : List Event}
    (h : run s cs = some (s', evs)) : evs.length = cs.length := by
  induction cs generalizing s evs with
  | nil => simp [run] at h; simp [h.2.symm]
  | cons c cs ih =>
    obtain ⟨r, evs', _, hr, rfl⟩ := run_cons h
    simp [ih hr]

theorem consumed_count_set_has_read (file : Nat) (l : List reader_ctx) (ctx : reader_ctx)
    (hctx : find_ctx l file = some ctx) (hflag : ctx.has_read = false) :
    consumed_count (set_has_read file l) = consumed_count l + 1 := by
  induction l with
  | nil => simp [find_ctx] at hctx
  | cons c l ih =>
    unfold find_ctx at hctx ih
    by_cases hc : c.file = file
    · simp only [List.find?_cons, hc, beq_self_eq_true, Option.some.injEq] at hctx
      subst hctx
      simp [set_has_read, hc, consumed_count, List.countP_cons, hflag]
    · have hcb : (c.file == file) = false := by simpa using hc
      simp only [List.find?_cons, hcb] at hctx
      have := ih hctx
      simp only [consumed_count] at this
      cases h : c.has_read <;>
        simp [set_has_read, hc, consumed_count, List.countP_cons, this, h]
      

/-- What a successful `device_read` did. -/
theorem device_read_ok {s : State} {file ucap len : Nat} {nonblock sig : Bool} {r : Result}
    (he : device_read s file ucap len nonblock sig = some r) (hok : r.out.ok = true) :
    ∃ ctx, find_ctx s.reader_list file = some ctx ∧ ctx.has_read = false ∧ s.buff_len ≠ 0
      ∧ r.state = { s with
          reader_list := set_has_read file s.reader_list,
          buff_len := if consumed_count (set_has_read file s.reader_list)
                          ≥ total_count (set_has_read file s.reader_list) then 0
                      else s.buff_len } := by
  cases hctx : find_ctx s.reader_list file with
  | none => simp [device_read, hctx] at he
  | some ctx =>
    cases sig with
    | true =>
      simp only [device_read, hctx, if_true] at he
      injection he with he
      subst he
      simp [Outcome.ok, ERESTARTSYS] at hok
    | false =>
      by_cases hel : s.buff_len = 0 ∨ ctx.has_read = true
      · rw [device_read_blocked s file ucap len nonblock ctx hctx hel] at he
        injection he with he
        subst he
        cases nonblock <;> simp [Outcome.ok, EAGAIN] at hok
      · push_neg at hel
        have hflag : ctx.has_read = false := by simpa using hel.2
        rw [device_read_go s file ucap len nonblock ctx hctx hel.1 hflag] at he
        split at he
        · injection he with he
          subst he
          exact ⟨ctx, rfl, hflag, hel.1, rfl⟩
        · injection he with he
          subst he
          simp [Outcome.ok, EFAULT] at hok

theorem consumed_le_total (l : List reader_ctx) : consumed_count l ≤ total_count l :=
  List.countP_le_length _

/-- Successful reads in a row: each one raises `consumed_count` by one, and
`buff_len` is `m` until the count reaches `total_count`. -/
theorem reads_drain (m : Int) (cs : List Call) :
    ∀ (t t' : State) (evs : List Event),
      (∀ c ∈ cs, c.is_consume = true) →
      t.buff_len = (if consumed_count t.reader_list ≥ total_count t.reader_list then 0 else m) →
      run t cs = some (t', evs) →
      (∀ e ∈ evs, e.out.ok = true) →
      consumed_count t'.reader_list = consumed_count t.reader_list + cs.length
      ∧ total_count t'.reader_list = total_count t.reader_list
      ∧ t'.buff_len
          = (if consumed_count t'.reader_list ≥ total_count t'.reader_list then 0 else m) := by
  induction cs with
  | nil =>
    intro t t' evs _ hb hrun _
    simp only [run, Option.some.injEq, Prod.mk.injEq] at hrun
    rw [← hrun.1]
    exact ⟨by simp, rfl, hb⟩
  | cons c cs ih =>
    intro t t' evs hcs hb hrun hok
    obtain ⟨r, evs', he, hr, rfl⟩ := run_cons hrun
    have hc := hcs c (List.mem_cons_self _ _)
    cases c with
    | consume file ucap len nb sig =>
      have hok1 : r.out.ok = true := hok _ (List.mem_cons_self _ _)
      obtain ⟨ctx, hctx, hflag, hne, hst⟩ := device_read_ok he hok1
      have hcnt := consumed_count_set_has_read file t.reader_list ctx hctx hflag
      have htot : total_count (set_has_read file t.reader_list) = total_count t.reader_list :=
        length_set_has_read file t.reader_list
      have htm : t.buff_len = m := by
        rw [hb] at hne ⊢
        split at hne
        · exact absurd rfl hne
        · rename_i h; simp [h]
      have hb' : r.state.buff_len
          = (if consumed_count r.state.reader_list ≥ total_count r.state.reader_list then 0
             else m) := by
        rw [hst]; simp only [htm]
      have := ih r.state t' evs' (fun c hc => hcs c (List.mem_cons_of_mem _ hc)) hb' hr
        (fun e he => hok e (List.mem_cons_of_mem _ he))
      rw [hst] at this
      simp only [hcnt, htot] at this
      refine ⟨?_, this.2.1, this.2.2⟩
      rw [this.1, List.length_cons]; omega
    | subscribe _ _ => simp [Call.is_consume] at hc
    | unsubscribe _ => simp [Call.is_consume] at hc
    | publish _ _ _ _ => simp [Call.is_consume] at hc

theorem consumed_count_reset (l : List reader_ctx) :
    consumed_count (reset_all_reader_flags l) = 0 := by
  simp [consumed_count, reset_all_reader_flags, List.countP_eq_zero]

theorem device_read_flagged (s : State) (file ucap len : Nat) (nonblock sig : Bool)
    (hf : flagged s file) :
    ∃ r, device_read s file ucap len nonblock sig = some r ∧ r.state = s ∧ r.out.ok = false
      ∧ (nonblock = true → sig = false → r.out = .ret (-EAGAIN)) := by
  obtain ⟨ctx, hctx, hflag⟩ := hf
  cases sig with
  | true =>
    simp only [device_read, hctx, if_true]
    exact ⟨_, rfl, rfl, by simp [Outcome.ok, ERESTARTSYS], by simp⟩
  | false =>
    rw [device_read_blocked s file ucap len nonblock ctx hctx (Or.inr hflag)]
    refine ⟨_, rfl, rfl, ?_, ?_⟩
    · cases nonblock <;> simp [Outcome.ok, EAGAIN]
    · intro h _; simp [h]

theorem device_write_not_ok (s : State) (ubuf : List Byte) (len : Nat) (nonblock sig : Bool)
    (h : (device_write s ubuf len nonblock sig).out.ok = false) :
    (device_write s ubuf len nonblock sig).state.reader_list = s.reader_list
    ∧ (device_write s ubuf len nonblock sig).state.buff_len = s.buff_len := by
  have hm : (if len > BUF_LEN then BUF_LEN else len) = min len BUF_LEN := by
    split <;> omega
  have hle : min len BUF_LEN ≤ BUF_LEN := Nat.min_le_right _ _
  unfold device_write at h ⊢
  split
  · exact ⟨rfl, rfl⟩
  · split
    · split <;> exact ⟨rfl, rfl⟩
    · simp only [hm] at h ⊢
      split
      · exact ⟨rfl, rfl⟩
      · rename_i h1 h2 h3
        simp only [h1, h2, h3, if_false, Outcome.ok, size_t_to_ssize_t_eq hle] at h
        simp at h

theorem device_read_reader_list {s : State} {file ucap len : Nat} {nonblock sig : Bool}
    {r : Result} (he : device_read s file ucap len nonblock sig = some r) :
    r.state.reader_list = s.reader_list
    ∨ r.state.reader_list = set_has_read file s.reader_list := by
  cases hctx : find_ctx s.reader_list file with
  | none => simp [device_read, hctx] at he
  | some ctx =>
    cases sig with
    | true =>
      simp only [device_read, hctx, if_true] at he
      injection he with he
      subst he
      exact Or.inl rfl
    | false =>
      by_cases hel : s.buff_len = 0 ∨ ctx.has_read = true
      · rw [device_read_blocked s file ucap len nonblock ctx hctx hel] at he
        injection he with he
        subst he
        exact Or.inl rfl
      · push_neg at hel
        have hflag : ctx.has_read = false := by simpa using hel.2
        rw [device_read_go s file ucap len nonblock ctx hctx hel.1 hflag] at he
        split at he
        · injection he with he
          subst he
          exact Or.inr rfl
        · injection he with he
          subst he
          exact Or.inl rfl

/-- A step that is neither a release of `file` nor a successful write keeps
the flag of `file` set. -/
theorem exec_flagged (s : State) (c : Call) (r : Result) (file : Nat)
    (he : exec s c = some r) (hc : c ≠ .unsubscribe file)
    (hp : ({ call := c, out := r.out } : Event).publish_ok = false)
    (hf : flagged s file) : flagged r.state file := by
  obtain ⟨ctx, hctx, hflag⟩ := hf
  cases c with
  | subscribe g ok =>
    simp only [exec] at he
    split at he
    · exact absurd he (by simp)
    · rename_i hnone
      injection he with he
      subst he
      have hg : g ≠ file := by
        intro h; subst h; simp [hctx] at hnone
      cases ok
      · exact ⟨ctx, hctx, hflag⟩
      · refine ⟨ctx, ?_, hflag⟩
        have hgb : (g == file) = false := by simpa using hg
        simpa [device_open, find_ctx, List.find?_cons, hgb] using hctx
  | unsubscribe g =>
    have hg : file ≠ g := fun h => hc (by rw [h])
    simp only [exec, device_release] at he
    split at he
    · exact absurd he (by simp)
    · injection he with he
      subst he
      exact ⟨ctx, by simpa using (find_ctx_list_del g file s.reader_list hg).trans hctx, hflag⟩
  | consume g ucap len nb sig =>
    simp only [exec] at he
    rcases device_read_reader_list he with h | h
    · exact ⟨ctx, by rw [h]; exact hctx, hflag⟩
    · simp only [flagged, h, find_ctx_set_has_read]
      by_cases hfg : file = g
      · subst hfg
        exact ⟨{ ctx with has_read := true }, by simp [hctx], rfl⟩
      · exact ⟨ctx, by simp [hfg, hctx], hflag⟩
  | publish ubuf len nb sig =>
    simp only [exec] at he
    injection he with he
    subst he
    have hno : (device_write s ubuf len nb sig).out.ok = false := by
      simpa [Event.publish_ok] using hp
    exact ⟨ctx, by rw [(device_write_not_ok s ubuf len nb sig hno).1]; exact hctx, hflag⟩

theorem run_split {evA evB : List Event} :
    ∀ {s s' : State} {cs : List Call}, run s cs = some (s', evA ++ evB) →
      ∃ csA csB t, cs = csA ++ csB ∧ run s csA = some (t, evA) ∧ run t csB = some (s', evB) := by
  induction evA with
  | nil =>
    intro s s' cs h
    exact ⟨[], cs, s, rfl, rfl, h⟩
  | cons e evA ih =>
    intro s s' cs h
    cases cs with
    | nil => simp [run] at h
    | cons c cs =>
      obtain ⟨r, evs', he, hr, heq⟩ := run_cons h
      simp only [List.cons_append, List.cons.injEq] at heq
      obtain ⟨he1, he2⟩ := heq
      subst he2
      obtain ⟨csA, csB, t, hcs, hA, hB⟩ := ih hr
      refine ⟨c :: csA, csB, t, by simp [hcs], ?_, hB⟩
      simp [run, he, hA, he1]

/-- Steps without a release of `file` and without a successful write keep the
flag of `file` set. -/
theorem run_flagged (file : Nat) (cs : List Call) :
    ∀ (s s' : State) (evs : List Event), run s cs = some (s', evs) →
      (∀ e ∈ evs, e.call ≠ .unsubscribe file) → (∀ e ∈ evs, e.publish_ok = false) →
      flagged s file → flagged s' file := by
  induction cs with
  | nil =>
    intro s s' evs h _ _ hf
    simp only [run, Option.some.injEq, Prod.mk.injEq] at h
    rw [← h.1]; exact hf
  | cons c cs ih =>
    intro s s' evs h hu hp hf
    obtain ⟨r, evs', he, hr, rfl⟩ := run_cons h
    have h1 := exec_flagged s c r file he (hu _ (List.mem_cons_self _ _))
      (hp _ (List.mem_cons_self _ _)) hf
    exact ih r.state s' evs' hr (fun e he => hu e (List.mem_cons_of_mem _ he))
      (fun e he => hp e (List.mem_cons_of_mem _ he)) h1

theorem consumed_add_pending (l : List reader_ctx) :
    consumed_count l + pending_count l = total_count l := by
  simp only [consumed_count, pending_count, total_count]
  rw [List.length_eq_countP_add_countP (fun c => c.has_read) l]
  congr 1
  apply List.countP_congr
  intro c _
  simp

theorem pending_zero_iff (l : List reader_ctx) :
    pending_count l = 0 ↔ ∀ c ∈ l, c.has_read = true := by
  simp [pending_count, List.countP_eq_zero]

theorem find_ctx_reset (l : List reader_ctx) (file : Nat) :
    find_ctx (reset_all_reader_flags l) file
      = (find_ctx l file).map (fun c => { c with has_read := false }) := by
  induction l with
  | nil => rfl
  | cons c l ih =>
    unfold find_ctx reset_all_reader_flags at ih ⊢
    by_cases hc : c.file = file
    · simp [List.find?_cons, hc]
    · have hcb : (c.file == file) = false := by simpa using hc
      simp only [List.map_cons, List.find?_cons, hcb, ih]

theorem consumed_lt_total_of_pending (l : List reader_ctx) (file : Nat) (ctx : reader_ctx)
    (hctx : find_ctx l file = some ctx) (hflag : ctx.has_read = false) :
    consumed_count l < total_count l := by
  have hmem := (find_ctx_some hctx).1
  have hadd := consumed_add_pending l
  have hpos : 0 < pending_count l := by
    unfold pending_count
    exact List.countP_pos_iff.2 ⟨ctx, hmem, by simp [hflag]⟩
  omega

/-- Reads through distinct files that have not read yet all succeed. -/
theorem reads_succeed (m : Int) (hm : 0 < m) (hmle : m ≤ BUF_LEN) (ucap len : Nat)
    (nonblock : Bool) (hcopy : min len m.toNat ≤ ucap) :
    ∀ (fs : List Nat) (t : State), fs.Nodup →
      (∀ f ∈ fs, ∃ ctx, find_ctx t.reader_list f = some ctx ∧ ctx.has_read = false) →
      t.buff_len = (if consumed_count t.reader_list ≥ total_count t.reader_list then 0 else m) →
      ∃ t' evs, run t (fs.map (fun f => Call.consume f ucap len nonblock false)) = some (t', evs)
        ∧ ∀ e ∈ evs, e.out.ok = true := by
  intro fs
  induction fs with
  | nil =>
    intro t _ _ _
    exact ⟨t, [], rfl, by simp⟩
  | cons f fs ih =>
    intro t hnd hreg hb
    obtain ⟨ctx, hctx, hflag⟩ := hreg f (List.mem_cons_self _ _)
    have hlt := consumed_lt_total_of_pending t.reader_list f ctx hctx hflag
    have htm : t.buff_len = m := by
      rw [hb]; simp only [ge_iff_le, Nat.not_le.2 hlt, if_false]
    have hne : t.buff_len ≠ 0 := by omega
    have hsz : int_to_size_t t.buff_len = m.toNat := by
      rw [htm]; exact int_to_size_t_eq (Int.le_of_lt hm) hmle
    have hread := device_read_go t f ucap len nonblock ctx hctx hne hflag
    rw [hsz, if_pos hcopy, htm] at hread
    have hle : min len m.toNat ≤ BUF_LEN := by omega
    simp only [List.nodup_cons] at hnd
    obtain ⟨t', evs, hrun, hok⟩ := ih _ hnd.2
      (by
        intro g hg
        obtain ⟨cg, hcg, hfg⟩ := hreg g (List.mem_cons_of_mem _ hg)
        have hgf : g ≠ f := fun h => hnd.1 (h ▸ hg)
        exact ⟨cg, by simp [find_ctx_set_has_read, hgf, hcg], hfg⟩)
      (show ({ t with reader_list := set_has_read f t.reader_list,
                      buff_len := if consumed_count (set_has_read f t.reader_list)
                          ≥ total_count (set_has_read f t.reader_list) then 0 else m } : State).buff_len
          = _ from rfl)
    refine ⟨t', { call := .consume f ucap len nonblock false,
                  out := .ret (size_t_to_ssize_t (min len m.toNat)) } :: evs, ?_, ?_⟩
    · simp only [List.map_cons, run, exec, hread, hrun]
    · intro e he
      rcases List.mem_cons.1 he with h | h
      · subst h
        simp only [Outcome.ok, size_t_to_ssize_t_eq hle, decide_eq_true_eq]
        omega
      · exact hok e h

/-- What `device_write` does on an empty slot when all `data` is readable. -/
theorem device_write_empty_eq (s : State) (data : List Byte) (nonblock : Bool)
    (hempty : s.buff_len = 0) :
    device_write s data data.length nonblock false
      = { state := { s with message := data.take (min data.length BUF_LEN)
                                         ++ s.message.drop (min data.length BUF_LEN),
                            buff_len := ((min data.length BUF_LEN : Nat) : Int),
                            reader_list := reset_all_reader_flags s.reader_list },
          out := .ret ((min data.length BUF_LEN : Nat) : Int), ubuf := [],
          wake_read := true, wake_write := false } := by
  have hm : (if data.length > BUF_LEN then BUF_LEN else data.length) = min data.length BUF_LEN := by
    split <;> omega
  have hle : min data.length BUF_LEN ≤ BUF_LEN := Nat.min_le_right _ _
  unfold device_write
  simp only [hempty, hm, copy_from_user, size_t_to_int_eq hle, size_t_to_ssize_t_eq hle]
  have h0 : min data.length BUF_LEN - data.length = 0 := by omega
  simp [h0]

/-! ## The scenarios, step by step -/

theorem scenario1_run :
    run (device_write state_AB [104, 105] ([104, 105] : List Byte).length true false).state
      scenario1_reads = some (scenario1_end.1, scenario1_end.2) := by
  rfl

theorem reachable_state_AB : Reachable state_AB :=
  Reachable.step (.subscribe file_B true)
    (Reachable.step (.subscribe file_A true) Reachable.start rfl) rfl

theorem reachable_state_AB_hi : Reachable state_AB_hi :=
  Reachable.step (.publish [104, 105] 2 true false) reachable_state_AB rfl

theorem once_run :
    run state_AB_hi once_calls
      = some (once_end.1, [] ++ ({ call := .consume file_A 16 16 true false, out := .ret 2 } : Event)
          :: [{ call := .subscribe file_C true, out := .ret 0 }]) := by
  rfl

/-! ## C1 -/

/-- C1 (full drain): start from an empty slot (`buff_len = 0`) with `N >= 1`
registered contexts, write a non-empty message, then let `cs` be any sequence
of `device_read` calls that all succeed.  The write succeeds with the byte
count `min |data| BUF_LEN`; afterwards `buff_len = 0` if and only if the
number of reads equals `N`; with fewer than `N` reads `buff_len` still is the
written byte count; and there are never more than `N` successful reads (each
file reads once, so the readers are distinct).  Such reads exist: through any
list of distinct registered files, with user buffers that hold the bytes
asked for, the reads run and all succeed. -/
theorem full_drain (s : State) (data : List Byte) (nonblock : Bool) (cs : List Call)
    (s' : State) (evs : List Event)
    (hN : 1 ≤ total_count s.reader_list) (hempty : s.buff_len = 0) (hdata : data ≠ [])
    (hcs : ∀ c ∈ cs, c.is_consume = true)
    (hrun : run (device_write s data data.length nonblock false).state cs = some (s', evs))
    (hok : ∀ e ∈ evs, e.out.ok = true) :
    (device_write s data data.length nonblock false).out
        = .ret ((min data.length BUF_LEN : Nat) : Int)
    ∧ (device_write s data data.length nonblock false).state.buff_len
        = ((min data.length BUF_LEN : Nat) : Int)
    ∧ (s'.buff_len = 0 ↔ cs.length = total_count s.reader_list)
    ∧ (cs.length < total_count s.reader_list
        → s'.buff_len = ((min data.length BUF_LEN : Nat) : Int))
    ∧ cs.length ≤ total_count s.reader_list
    ∧ (∀ (fs : List Nat) (ucap len : Nat) (nb : Bool),
        fs.Nodup → (∀ f ∈ fs, f ∈ files s) → min len (min data.length BUF_LEN) ≤ ucap →
        ∃ t tevs,
          run (device_write s data data.length nonblock false).state
              (fs.map (fun f => Call.consume f ucap len nb false)) = some (t, tevs)
          ∧ ∀ e ∈ tevs, e.out.ok = true) := by
  have hw := device_write_empty_eq s data nonblock hempty
  have hout : (device_write s data data.length nonblock false).out
      = .ret ((min data.length BUF_LEN : Nat) : Int) := by rw [hw]
  have hlen : (device_write s data data.length nonblock false).state.buff_len
      = ((min data.length BUF_LEN : Nat) : Int) := by rw [hw]
  refine ⟨hout, hlen, ?_⟩
  have hpos : 0 < data.length := List.length_pos.2 hdata
  have hm : (0 : Int) < ((min data.length BUF_LEN : Nat) : Int) := by
    simp only [BUF_LEN]; omega
  have hrl : (device_write s data data.length nonblock false).state.reader_list
      = reset_all_reader_flags s.reader_list := by rw [hw]
  have hc0 : consumed_count (device_write s data data.length nonblock false).state.reader_list
      = 0 := by rw [hrl]; exact consumed_count_reset _
  have ht0 : total_count (device_write s data data.length nonblock false).state.reader_list
      = total_count s.reader_list := by
    rw [hrl]; simp [total_count, reset_all_reader_flags]
  have hb : (device_write s data data.length nonblock false).state.buff_len
      = (if consumed_count (device_write s data data.length nonblock false).state.reader_list
            ≥ total_count (device_write s data data.length nonblock false).state.reader_list
         then 0 else ((min data.length BUF_LEN : Nat) : Int)) := by
    rw [hc0, ht0, hlen]
    have : ¬ (0 ≥ total_count s.reader_list) := by omega
    simp [this]
  obtain ⟨h1, h2, h3⟩ := reads_drain _ cs _ s' evs hcs hb hrun hok
  rw [hc0, Nat.zero_add] at h1
  rw [ht0] at h2
  have hle := consumed_le_total s'.reader_list
  rw [h1, h2] at hle h3
  refine ⟨?_, ?_, hle, ?_⟩
  · rw [h3]
    constructor
    · intro h
      by_cases hk : cs.length ≥ total_count s.reader_list
      · omega
      · simp only [hk, if_false] at h; omega
    · intro h
      simp [h]
  · intro hk
    have : ¬ (cs.length ≥ total_count s.reader_list) := by omega
    rw [h3]; simp only [this, if_false]
  · intro fs ucap len nb hnd hreg hcopy
    have hmle : ((min data.length BUF_LEN : Nat) : Int) ≤ (BUF_LEN : Nat) := by
      simp only [BUF_LEN]; omega
    refine reads_succeed _ hm hmle ucap len nb (by simpa using hcopy) fs _ hnd ?_ hb
    intro f hf
    have hsome := (find_ctx_isSome_iff s.reader_list f).2 (hreg f hf)
    obtain ⟨ctx, hctx⟩ := Option.isSome_iff_exists.1 hsome
    exact ⟨{ ctx with has_read := false }, by rw [hrl, find_ctx_reset, hctx]; rfl, rfl⟩

/-- C1 in Scenario 1: A and B are registered, `"hi"` is written, A and B read;
`buff_len` is 0 after the two reads. -/
theorem full_drain_witness :
    1 ≤ total_count state_AB.reader_list ∧ state_AB.buff_len = 0
    ∧ ([104, 105] : List Byte) ≠ []
    ∧ (∀ c ∈ scenario1_reads, c.is_consume = true)
    ∧ (∀ e ∈ scenario1_end.2, e.out.ok = true)
    ∧ (scenario1_end.1.buff_len = 0
        ↔ scenario1_reads.length = total_count state_AB.reader_list) :=
  ⟨by decide, by decide, by decide, by decide, by decide,
    (full_drain state_AB [104, 105] true scenario1_reads scenario1_end.1 scenario1_end.2
      (by decide) (by decide) (by decide) (by decide) scenario1_run (by decide)).2.2.1⟩

/-! ## C2 -/

/-- C2 (exactly once per publish): in any run, after an event `e1` that is a
successful `device_read` through `file`, let `mid` be the events that follow,
none of them a release of `file` (it is still the same subscriber) and none a
successful `device_write`.  Then in the state reached every `device_read`
through `file` fails and changes nothing, a non-blocking one returns
`-EAGAIN`, and whatever call comes next is not a successful read through
`file`: a second successful read needs a successful write in between. -/
theorem exactly_once_per_publish (s s' : State) (cs : List Call) (pre mid : List Event)
    (e1 : Event) (file : Nat)
    (hrun : run s cs = some (s', pre ++ e1 :: mid))
    (h1 : e1.consume_ok file = true)
    (hsame : ∀ e ∈ mid, e.call ≠ .unsubscribe file)
    (hnopub : ∀ e ∈ mid, e.publish_ok = false) :
    (∀ (ucap len : Nat) (nonblock sig : Bool),
        ∃ r, device_read s' file ucap len nonblock sig = some r
          ∧ r.out.ok = false ∧ r.state = s')
    ∧ (∀ (ucap len : Nat),
        ∃ r, device_read s' file ucap len true false = some r ∧ r.out = .ret (-EAGAIN))
    ∧ (∀ (c2 : Call) (r2 : Result), exec s' c2 = some r2 →
        ({ call := c2, out := r2.out } : Event).consume_ok file = false) := by
  obtain ⟨csA, csB, t, -, -, hB⟩ := run_split hrun
  cases csB with
  | nil => simp [run] at hB
  | cons c1 csB =>
    obtain ⟨r1, evs', he1, hr, heq⟩ := run_cons hB
    simp only [List.cons.injEq] at heq
    obtain ⟨hev, hmid⟩ := heq
    subst hmid
    have hf1 : flagged r1.state file := by
      subst hev
      cases c1 with
      | consume g ucap len nb sig =>
        simp only [Event.consume_ok, Bool.and_eq_true, beq_iff_eq] at h1
        obtain ⟨hg, hok⟩ := h1
        subst hg
        simp only [exec] at he1
        obtain ⟨ctx, hctx, -, -, hst⟩ := device_read_ok he1 hok
        rw [hst]
        exact ⟨{ ctx with has_read := true }, by simp [find_ctx_set_has_read, hctx], rfl⟩
      | subscribe _ _ => simp [Event.consume_ok] at h1
      | unsubscribe _ => simp [Event.consume_ok] at h1
      | publish _ _ _ _ => simp [Event.consume_ok] at h1
    have hf : flagged s' file := run_flagged file csB r1.state s' mid hr hsame hnopub hf1
    refine ⟨?_, ?_, ?_⟩
    · intro ucap len nonblock sig
      obtain ⟨r, hr, hst, hno, -⟩ := device_read_flagged s' file ucap len nonblock sig hf
      exact ⟨r, hr, hno, hst⟩
    · intro ucap len
      obtain ⟨r, hr, -, -, hag⟩ := device_read_flagged s' file ucap len true false hf
      exact ⟨r, hr, hag rfl rfl⟩
    · intro c2 r2 he2
      cases c2 with
      | consume g ucap len nb sig =>
        simp only [Event.consume_ok]
        by_cases hg : g = file
        · subst hg
          simp only [exec] at he2
          obtain ⟨r, hr, -, hno, -⟩ := device_read_flagged s' g ucap len nb sig hf
          rw [hr] at he2
          injection he2 with he2
          subst he2
          simp [hno]
        · simp [hg]
      | subscribe _ _ => rfl
      | unsubscribe _ => rfl
      | publish _ _ _ _ => rfl

/-- C2 after `"hi"` is written: A reads, C opens the device, and A's next
non-blocking read returns `-EAGAIN`. -/
theorem exactly_once_per_publish_witness :
    ({ call := .consume file_A 16 16 true false, out := .ret 2 } : Event).consume_ok file_A = true
    ∧ ∃ r, device_read once_end.1 file_A 16 16 true false = some r ∧ r.out = .ret (-EAGAIN) :=
  ⟨by decide,
    (exactly_once_per_publish state_AB_hi once_end.1 once_calls []
      [{ call := .subscribe file_C true, out := .ret 0 }]
      { call := .consume file_A 16 16 true false, out := .ret 2 } file_A
      once_run (by decide) (by decide) (by decide)).2.1 16 16⟩

/-! ## C3 -/

/-- C3 at the failing input: A and B open, `"m"` is written (`buff_len = 1`,
nobody has read), B closes.  `device_release` sets `buff_len` to 0 although A
is still registered with `has_read = false`. -/
theorem release_drops_pending_message :
    (run init (departure_calls.take 3)).map (fun p => (p.1.buff_len, p.1.reader_list))
      = some (1, [{ file := file_B, has_read := false }, { file := file_A, has_read := false }])
    ∧ (run init departure_calls).map (fun p => (p.1.buff_len, p.1.reader_list))
      = some (0, [{ file := file_A, has_read := false }]) := by
  decide

/-! ## C4 -/

/-- C4: `device_write` on an empty slot (`buff_len = 0`) with a readable user
buffer `data` stores the first `min |data| BUF_LEN` bytes of `data` at the start
of `message`, sets `buff_len` to that count, clears every `has_read`, keeps the
registered files, and returns that count; a payload longer than `BUF_LEN` gives
`buff_len = 1024` and the return value `1024`. -/
theorem device_write_empty_slot (s : State) (data : List Byte) (nonblock : Bool)
    (hempty : s.buff_len = 0) :
    (device_write s data data.length nonblock false).out
        = .ret ((min data.length BUF_LEN : Nat) : Int)
    ∧ (device_write s data data.length nonblock false).state.buff_len
        = ((min data.length BUF_LEN : Nat) : Int)
    ∧ (device_write s data data.length nonblock false).state.message
        = data.take (min data.length BUF_LEN) ++ s.message.drop (min data.length BUF_LEN)
    ∧ (device_write s data data.length nonblock false).state.message.take (min data.length BUF_LEN)
        = data.take (min data.length BUF_LEN)
    ∧ (∀ c ∈ (device_write s data data.length nonblock false).state.reader_list, c.has_read = false)
    ∧ files (device_write s data data.length nonblock false).state = files s
    ∧ (BUF_LEN < data.length →
        (device_write s data data.length nonblock false).state.buff_len = 1024
        ∧ (device_write s data data.length nonblock false).out = .ret 1024) := by
  have hw := device_write_empty_eq s data nonblock hempty
  rw [hw]
  refine ⟨rfl, rfl, rfl, ?_, ?_, ?_, ?_⟩
  · simp
  · intro c hc
    simp only [reset_all_reader_flags, List.mem_map] at hc
    obtain ⟨d, _, rfl⟩ := hc
    rfl
  · simp [files, reset_all_reader_flags, Function.comp_def]
  · intro hbig
    have : min data.length BUF_LEN = 1024 := by simp only [BUF_LEN] at hbig ⊢; omega
    simp [this]

/-- C4 at a payload of 1030 bytes written to the freshly loaded driver. -/
theorem device_write_empty_slot_witness :
    init.buff_len = 0
    ∧ (device_write init payload_1030 payload_1030.length true false).state.buff_len = 1024
    ∧ (device_write init payload_1030 payload_1030.length true false).out = .ret 1024 :=
  ⟨rfl, (device_write_empty_slot init payload_1030 true rfl).2.2.2.2.2.2
    (by simp only [payload_1030, List.length_replicate, BUF_LEN]; decide)⟩

/-! ## C5 -/

/-- C5: for a registered file with `has_read = false` and `buff_len > 0`, a
`device_read` whose copy succeeds returns the first `min len buff_len` bytes
of `message` and that count, sets the file's `has_read`, leaves `message` and
every other context unchanged, and sets `buff_len` to 0 if afterwards
`consumed_count >= total_count` over the registry, else leaves it. -/
theorem device_read_eligible (s : State) (file ucap len : Nat) (nonblock : Bool)
    (ctx : reader_ctx) (hnd : (files s).Nodup) (hmsg : s.message.length = BUF_LEN)
    (hcap : s.buff_len ≤ BUF_LEN) (hlen : 0 < s.buff_len)
    (hctx : find_ctx s.reader_list file = some ctx) (hflag : ctx.has_read = false)
    (hcopy : min len s.buff_len.toNat ≤ ucap) :
    ∃ r, device_read s file ucap len nonblock false = some r
      ∧ r.out = .ret ((min len s.buff_len.toNat : Nat) : Int)
      ∧ r.ubuf = s.message.take (min len s.buff_len.toNat)
      ∧ r.ubuf.length = min len s.buff_len.toNat
      ∧ find_ctx r.state.reader_list file = some { file := file, has_read := true }
      ∧ r.state.message = s.message
      ∧ r.state.reader_list
          = s.reader_list.map (fun c => if c.file = file then { c with has_read := true } else c)
      ∧ r.state.buff_len
          = (if consumed_count r.state.reader_list ≥ total_count r.state.reader_list then 0
             else s.buff_len) := by
  have hsz := int_to_size_t_eq (Int.le_of_lt hlen) hcap
  have hne : s.buff_len ≠ 0 := by omega
  have hle : min len s.buff_len.toNat ≤ BUF_LEN := by omega
  rw [device_read_go s file ucap len nonblock ctx hctx hne hflag, hsz, if_pos hcopy]
  refine ⟨_, rfl, ?_, rfl, ?_, ?_, rfl, ?_, rfl⟩
  · simp only [size_t_to_ssize_t_eq hle]
  · simp only [List.length_take, hmsg]; omega
  · have hf := (find_ctx_some hctx).2
    simp only [find_ctx_set_has_read, hctx, if_true, Option.map_some']
    cases ctx with
    | mk f hr => simp at hf; simp [hf]
  · exact set_has_read_eq_map file s.reader_list hnd

/-- C5 in Scenario 1: A reads `"hi"` with a 16-byte buffer; the read returns 2
and the two bytes, and `buff_len` stays 2 because B has not read. -/
theorem device_read_eligible_witness :
    (files state_AB_hi).Nodup ∧ state_AB_hi.message.length = BUF_LEN
    ∧ state_AB_hi.buff_len ≤ BUF_LEN ∧ 0 < state_AB_hi.buff_len
    ∧ find_ctx state_AB_hi.reader_list file_A = some { file := file_A, has_read := false }
    ∧ min 16 state_AB_hi.buff_len.toNat ≤ 16
    ∧ ∃ r, device_read state_AB_hi file_A 16 16 true false = some r
      ∧ r.out = .ret 2 ∧ r.ubuf = [104, 105] ∧ r.state.buff_len = 2 := by
  have hinv := reachable_inv state_AB_hi reachable_state_AB_hi
  have h := device_read_eligible state_AB_hi file_A 16 16 true
    { file := file_A, has_read := false } hinv.2.2.2 hinv.1 (by decide) (by decide)
    (by decide) rfl (by decide)
  refine ⟨hinv.2.2.2, hinv.1, by decide, by decide, by decide, by decide, ?_⟩
  obtain ⟨r, hr, h1, h2, -, -, -, h6, h7⟩ := h
  refine ⟨r, hr, h1, h2, ?_⟩
  rw [h7, h6]
  decide

/-! ## C6 -/

/-- C6: `device_release` of a registered file `d` removes its context and
leaves `message` and every remaining context unchanged; `buff_len` becomes 0
exactly when `buff_len > 0`, `d` had not read, and `consumed_count + 1 >=
total_count` over the remaining registry, and is unchanged otherwise.  In
Scenario 3 the resulting `buff_len` is 0. -/
theorem device_release_accounting (s : State) (d : Nat) (ctx : reader_ctx)
    (hnd : (files s).Nodup) (hctx : find_ctx s.reader_list d = some ctx) :
    (∃ r, device_release s d = some r
      ∧ r.out = .ret 0
      ∧ r.state.message = s.message
      ∧ r.state.reader_list = s.reader_list.filter (fun c => c.file != d)
      ∧ d ∉ files r.state
      ∧ (∀ g, g ≠ d → find_ctx r.state.reader_list g = find_ctx s.reader_list g)
      ∧ r.state.buff_len
          = (if 0 < s.buff_len ∧ ctx.has_read = false
                ∧ consumed_count r.state.reader_list + 1 ≥ total_count r.state.reader_list
             then 0 else s.buff_len)
      ∧ (0 < s.buff_len → ctx.has_read = false →
          (r.state.buff_len = 0
            ↔ consumed_count r.state.reader_list + 1 ≥ total_count r.state.reader_list)))
    ∧ (run init scenario3_calls).map (fun p => p.1.buff_len) = some 0 := by
  refine ⟨?_, by decide⟩
  have hdel := list_del_eq_filter d s.reader_list hnd
  unfold device_release
  simp only [hctx, count_readers_eq]
  refine ⟨_, rfl, rfl, rfl, hdel, ?_, ?_, ?_, ?_⟩
  · simp only [files, hdel, List.mem_map, List.mem_filter, not_exists, not_and]
    intro c hc hcd
    simp [hcd] at hc
  · intro g hg
    exact find_ctx_list_del d g s.reader_list hg
  · by_cases h1 : 0 < s.buff_len <;> by_cases h2 : ctx.has_read = false <;>
      by_cases h3 : consumed_count (list_del d s.reader_list) + 1
          ≥ total_count (list_del d s.reader_list) <;>
      simp [h1, h2, h3, Nat.add_comm]
  · intro h1 h2
    have hg : (!ctx.has_read && decide (s.buff_len > 0)) = true := by simp [h1, h2]
    simp only [hg, if_true]
    by_cases h3 : 1 + consumed_count (list_del d s.reader_list)
          ≥ total_count (list_del d s.reader_list)
    · simp only [h3, decide_True, if_true, true_iff]; omega
    · simp only [h3, decide_False, if_false, Bool.false_eq_true]
      constructor
      · intro h; omega
      · intro h; omega

/-- C6 in Scenario 3: B closes after A has read `"m"`; B's context is gone and
the slot is empty. -/
theorem device_release_accounting_witness :
    (files state_AB_m_read).Nodup
    ∧ find_ctx state_AB_m_read.reader_list file_B = some { file := file_B, has_read := false }
    ∧ ∃ r, device_release state_AB_m_read file_B = some r
        ∧ r.out = .ret 0 ∧ r.state.message = state_AB_m_read.message :=
  ⟨by decide, by decide,
    (device_release_accounting state_AB_m_read file_B { file := file_B, has_read := false }
      (by decide) (by decide)).1.imp (fun _ h => ⟨h.1, h.2.1, h.2.2.1⟩)⟩

/-! ## C7 -/

/-- C7 as stated fails: in Scenario 2 the slot holds `"x"` (`buff_len = 1`) and
a non-blocking write of `"y"` is made whose wait for the mutex is ended by a
signal.  `mutex_lock_interruptible` fails before the `O_NONBLOCK` test is
reached, so the call returns `-ERESTARTSYS`, not `-EAGAIN`. -/
theorem device_write_nonblock_occupied_counterexample :
    0 < scenario2_state.buff_len
    ∧ (device_write scenario2_state [121] 1 true true).out = .ret (-ERESTARTSYS)
    ∧ (device_write scenario2_state [121] 1 true true).out ≠ .ret (-EAGAIN) := by
  decide

/-- C7 amended: a non-blocking `device_write` on an occupied slot
(`buff_len > 0`) leaves `message`, `buff_len` and `reader_list` (with every
`has_read`) as they were and wakes nobody, whatever the data and whether or
not a signal arrives; it returns `-EAGAIN` exactly when the mutex was taken
(no signal ended the wait for it), and `-ERESTARTSYS` when a signal did. -/
theorem device_write_nonblock_occupied (s : State) (ubuf : List Byte) (len : Nat)
    (sig : Bool) (hocc : 0 < s.buff_len) :
    device_write s ubuf len true sig
      = { state := s, out := .ret (if sig = true then -ERESTARTSYS else -EAGAIN),
          ubuf := [], wake_read := false, wake_write := false }
    ∧ ((device_write s ubuf len true sig).out = .ret (-EAGAIN) ↔ sig = false)
    ∧ ((device_write s ubuf len true sig).out = .ret (-ERESTARTSYS) ↔ sig = true) := by
  cases sig with
  | true =>
    have h : device_write s ubuf len true true
        = { state := s, out := .ret (-ERESTARTSYS), ubuf := [], wake_read := false,
            wake_write := false } := by
      unfold device_write
      simp
    rw [h]
    refine ⟨by simp, ?_, ?_⟩
    · simp [ERESTARTSYS, EAGAIN]
    · simp
  | false =>
    have h : device_write s ubuf len true false
        = { state := s, out := .ret (-EAGAIN), ubuf := [], wake_read := false,
            wake_write := false } := by
      unfold device_write
      simp [hocc]
    rw [h]
    refine ⟨by simp, ?_, ?_⟩
    · simp
    · simp [ERESTARTSYS, EAGAIN]

/-- C7 amended, in Scenario 2: after `"x"` is written a write of `"y"` that
gets the mutex fails with `-EAGAIN` and the slot still holds `"x"` with
`buff_len = 1`. -/
theorem device_write_nonblock_occupied_witness :
    0 < scenario2_state.buff_len
    ∧ scenario2_state.buff_len = 1
    ∧ scenario2_state.message.take 1 = [120]
    ∧ device_write scenario2_state [121] 1 true false
      = { state := scenario2_state,
          out := .ret (if false = true then -ERESTARTSYS else -EAGAIN),
          ubuf := [], wake_read := false, wake_write := false } :=
  ⟨by decide, by decide, by decide,
    (device_write_nonblock_occupied scenario2_state [121] 1 false (by decide)).1⟩

/-! ## C8 -/

/-- C8 as stated fails: A is registered and the slot is empty (`buff_len = 0`).
A non-blocking read whose wait for the mutex is ended by a signal returns
`-ERESTARTSYS`, not `-EAGAIN`, although `buff_len = 0`. -/
theorem device_read_nonblock_counterexample :
    state_A.buff_len = 0
    ∧ find_ctx state_A.reader_list file_A = some { file := file_A, has_read := false }
    ∧ (device_read state_A file_A 8 8 true true).map (fun r => r.out)
        = some (.ret (-ERESTARTSYS))
    ∧ (device_read state_A file_A 8 8 true true).map (fun r => r.out)
        ≠ some (.ret (-EAGAIN)) := by
  decide

/-- C8 amended: for a registered file, a non-blocking `device_read` returns
`-EAGAIN` if and only if the mutex was taken (no signal ended the wait for it)
and `buff_len = 0` or the file's `has_read` is set; when a signal ends the wait
it returns `-ERESTARTSYS`.  In both cases, and whenever `buff_len = 0` or
`has_read` is set, the state is unchanged. -/
theorem device_read_nonblock (s : State) (file ucap len : Nat) (sig : Bool)
    (ctx : reader_ctx) (h0 : 0 ≤ s.buff_len) (h1 : s.buff_len ≤ BUF_LEN)
    (hctx : find_ctx s.reader_list file = some ctx) :
    ∃ r, device_read s file ucap len true sig = some r
      ∧ (r.out = .ret (-EAGAIN) ↔ (sig = false ∧ (s.buff_len = 0 ∨ ctx.has_read = true)))
      ∧ (sig = true → r.out = .ret (-ERESTARTSYS) ∧ r.state = s)
      ∧ ((s.buff_len = 0 ∨ ctx.has_read = true) → r.state = s) := by
  cases sig with
  | true =>
    have h : device_read s file ucap len true true
        = some { state := s, out := .ret (-ERESTARTSYS), ubuf := [],
                 wake_read := false, wake_write := false } := by
      simp only [device_read, hctx, if_true]
    rw [h]
    refine ⟨_, rfl, ?_, fun _ => ⟨rfl, rfl⟩, fun _ => rfl⟩
    simp [ERESTARTSYS, EAGAIN]
  | false =>
    by_cases hel : s.buff_len = 0 ∨ ctx.has_read = true
    · rw [device_read_blocked s file ucap len true ctx hctx hel]
      exact ⟨_, rfl, by simp [hel], fun h => absurd h (by simp), fun _ => rfl⟩
    · have hel' := hel
      push_neg at hel
      have hflag : ctx.has_read = false := by simpa using hel.2
      rw [device_read_go s file ucap len true ctx hctx hel.1 hflag]
      have hsz := int_to_size_t_eq h0 h1
      have hle : min len (int_to_size_t s.buff_len) ≤ BUF_LEN := by
        rw [hsz]; omega
      split
      · refine ⟨_, rfl, ?_, fun h => absurd h (by simp), fun h => absurd h hel'⟩
        simp only [size_t_to_ssize_t_eq hle, EAGAIN, Outcome.ret.injEq]
        constructor
        · intro h; omega
        · intro h; exact absurd h.2 hel'
      · refine ⟨_, rfl, ?_, fun h => absurd h (by simp), fun h => absurd h hel'⟩
        simp only [EFAULT, EAGAIN, Outcome.ret.injEq]
        constructor
        · intro h; omega
        · intro h; exact absurd h.2 hel'

/-- C8 amended, at subscriber A reading from the empty slot with the mutex
taken: the read returns `-EAGAIN`. -/
theorem device_read_nonblock_witness :
    0 ≤ state_A.buff_len ∧ state_A.buff_len ≤ BUF_LEN
    ∧ find_ctx state_A.reader_list file_A = some { file := file_A, has_read := false }
    ∧ ∃ r, device_read state_A file_A 8 8 true false = some r
      ∧ (r.out = .ret (-EAGAIN)
          ↔ (false = false
              ∧ (state_A.buff_len = 0
                ∨ ({ file := file_A, has_read := false } : reader_ctx).has_read = true)))
      ∧ ((state_A.buff_len = 0
              ∨ ({ file := file_A, has_read := false } : reader_ctx).has_read = true)
          → r.state = state_A) :=
  ⟨by decide, by decide, by decide,
    (device_read_nonblock state_A file_A 8 8 false { file := file_A, has_read := false }
      (by decide) (by decide) (by decide)).imp (fun _ h => ⟨h.1, h.2.1, h.2.2.2⟩)⟩

/-! ## C9 -/

/-- C9 as stated fails: A, B and C are registered, `"m"` is written and C
closes without reading.  Two remaining subscribers are pending, yet
`device_release` does not empty the slot: the literal check and the naive
check both say no, so they agree although not every remaining subscriber has
read, and they do not differ although more than one is pending. -/
theorem literal_vs_naive_counterexample :
    find_ctx state_ABC_m.reader_list file_C = some { file := file_C, has_read := false }
    ∧ 0 < state_ABC_m.buff_len
    ∧ 1 < pending_count (list_del file_C state_ABC_m.reader_list)
    ∧ (device_release state_ABC_m file_C).map (fun r => decide (r.state.buff_len = 0))
        = some false
    ∧ literal_departure_check (list_del file_C state_ABC_m.reader_list) = false
    ∧ naive_departure_check (list_del file_C state_ABC_m.reader_list) = false := by
  decide

/-- C9 amended: when a file that has not read is released while `buff_len >
0`, `device_release` empties the slot exactly when its literal check
(`consumed_count + 1 >= total_count` over the remaining registry) holds, which
is exactly when at most one remaining subscriber is pending; the naive check
holds exactly when none is pending (all remaining have read).  The two
verdicts agree exactly when the number of pending remaining subscribers is not
one, and differ exactly when it is one: there the literal check empties the
slot and the naive check does not. -/
theorem literal_vs_naive (s : State) (d : Nat) (ctx : reader_ctx)
    (hctx : find_ctx s.reader_list d = some ctx) (hflag : ctx.has_read = false)
    (hlen : 0 < s.buff_len) :
    ∃ r, device_release s d = some r
      ∧ r.state.reader_list = list_del d s.reader_list
      ∧ (r.state.buff_len = 0 ↔ literal_departure_check r.state.reader_list = true)
      ∧ (literal_departure_check r.state.reader_list = true
          ↔ consumed_count r.state.reader_list + 1 ≥ total_count r.state.reader_list)
      ∧ (literal_departure_check r.state.reader_list = true
          ↔ pending_count r.state.reader_list ≤ 1)
      ∧ (naive_departure_check r.state.reader_list = true
          ↔ pending_count r.state.reader_list = 0)
      ∧ (literal_departure_check r.state.reader_list
            = naive_departure_check r.state.reader_list
          ↔ pending_count r.state.reader_list ≠ 1)
      ∧ (pending_count r.state.reader_list = 1 →
          r.state.buff_len = 0 ∧ naive_departure_check r.state.reader_list = false)
      ∧ (pending_count r.state.reader_list = 0 ↔ ∀ c ∈ r.state.reader_list, c.has_read = true) := by
  have hg : (!ctx.has_read && decide (s.buff_len > 0)) = true := by simp [hlen, hflag]
  have hadd := consumed_add_pending (list_del d s.reader_list)
  have hlit : literal_departure_check (list_del d s.reader_list) = true
      ↔ pending_count (list_del d s.reader_list) ≤ 1 := by
    simp only [literal_departure_check, count_readers_eq, decide_eq_true_eq]
    omega
  have hnaive : naive_departure_check (list_del d s.reader_list) = true
      ↔ pending_count (list_del d s.reader_list) = 0 := by
    simp only [naive_departure_check, decide_eq_true_eq]
    omega
  have hbl : (if literal_departure_check (list_del d s.reader_list) = true then (0 : Int)
      else s.buff_len) = 0 ↔ literal_departure_check (list_del d s.reader_list) = true := by
    split
    · simp [*]
    · constructor
      · intro h; omega
      · intro h; contradiction
  unfold device_release
  simp only [hctx, hg, if_true]
  refine ⟨_, rfl, rfl, hbl, ?_, hlit, hnaive, ?_, ?_, pending_zero_iff _⟩
  · simp only [literal_departure_check, count_readers_eq, decide_eq_true_eq]
    omega
  · dsimp only
    rw [Bool.eq_iff_iff, hlit, hnaive]
    omega
  · dsimp only
    intro h1
    refine ⟨hbl.2 (hlit.2 (by omega)), ?_⟩
    cases hn : naive_departure_check (list_del d s.reader_list) with
    | false => rfl
    | true => have := hnaive.1 hn; omega

/-- C9 amended, at one pending subscriber: A and B are registered, `"m"` is
written and B closes; the remaining registry is the list without B. -/
theorem literal_vs_naive_witness :
    find_ctx state_AB_m.reader_list file_B = some { file := file_B, has_read := false }
    ∧ 0 < state_AB_m.buff_len
    ∧ ∃ r, device_release state_AB_m file_B = some r
        ∧ r.state.reader_list = list_del file_B state_AB_m.reader_list :=
  ⟨by decide, by decide,
    (literal_vs_naive state_AB_m file_B { file := file_B, has_read := false }
      (by decide) rfl (by decide)).imp (fun _ h => ⟨h.1, h.2.1⟩)⟩

/-! ## C10 -/

/-- C10: in every state reachable from `init` by any sequence of calls,
`0 <= buff_len <= 1024` and `message` has 1024 bytes; so every successful
`device_read` returns a count `n <= buff_len` and exactly the first `n` bytes
of `message`, all of them inside the buffer. -/
theorem length_bound (s : State) (h : Reachable s) :
    0 ≤ s.buff_len ∧ s.buff_len ≤ 1024 ∧ s.message.length = 1024
    ∧ ∀ (file ucap len : Nat) (nonblock sig : Bool) (r : Result) (n : Int),
        device_read s file ucap len nonblock sig = some r → r.out = .ret n → 0 ≤ n →
          n ≤ s.buff_len ∧ r.ubuf = s.message.take n.toNat ∧ r.ubuf.length = n.toNat
          ∧ n.toNat ≤ s.message.length := by
  obtain ⟨h1, h2, h3, h4⟩ := reachable_inv s h
  simp only [BUF_LEN] at h1 h3
  refine ⟨h2, by simpa using h3, h1, ?_⟩
  intro file ucap len nonblock sig r n he hout hn
  have h3' : s.buff_len ≤ (BUF_LEN : Nat) := by simpa [BUF_LEN] using h3
  cases hctx : find_ctx s.reader_list file with
  | none => simp [device_read, hctx] at he
  | some ctx =>
    cases sig with
    | true =>
      simp only [device_read, hctx, if_true] at he
      injection he with he
      subst he
      simp [ERESTARTSYS] at hout
      omega
    | false =>
      by_cases hel : s.buff_len = 0 ∨ ctx.has_read = true
      · rw [device_read_blocked s file ucap len nonblock ctx hctx hel] at he
        injection he with he
        subst he
        cases nonblock <;> simp [EAGAIN] at hout
        omega
      · push_neg at hel
        have hflag : ctx.has_read = false := by simpa using hel.2
        rw [device_read_go s file ucap len nonblock ctx hctx hel.1 hflag,
          int_to_size_t_eq h2 h3'] at he
        have hle : min len s.buff_len.toNat ≤ BUF_LEN := by simp only [BUF_LEN]; omega
        split at he
        · injection he with he
          subst he
          simp only [size_t_to_ssize_t_eq hle, Outcome.ret.injEq] at hout
          subst hout
          simp only [Int.toNat_ofNat, List.length_take, h1]
          refine ⟨?_, ?_, ?_, ?_⟩ <;> first | trivial | omega
        · injection he with he
          subst he
          simp [EFAULT] at hout
          omega

/-- C10 at the reachable state of Scenario 1 after the write of `"hi"`. -/
theorem length_bound_witness :
    Reachable state_AB_hi ∧ 0 ≤ state_AB_hi.buff_len ∧ state_AB_hi.buff_len ≤ 1024 :=
  ⟨reachable_state_AB_hi, (length_bound state_AB_hi reachable_state_AB_hi).1,
    (length_bound state_AB_hi reachable_state_AB_hi).2.1⟩

/-! ## Further lemmas -/

theorem reachable_scenario2_state : Reachable scenario2_state :=
  Reachable.step (.publish [120] 1 true false)
    (Reachable.step (.subscribe file_A true) Reachable.start rfl) rfl

/-- What `device_write` does on an empty slot when the copy faults. -/
theorem device_write_fault_eq (s : State) (ubuf : List Byte) (len : Nat) (nonblock : Bool)
    (hempty : s.buff_len ≤ 0) (hfault : ubuf.length < min len BUF_LEN) :
    device_write s ubuf len nonblock false
      = { state := { s with message := (copy_from_user s.message ubuf (min len BUF_LEN)).1 },
          out := .ret (-EFAULT), ubuf := [], wake_read := false, wake_write := false } := by
  have hm : (if len > BUF_LEN then BUF_LEN else len) = min len BUF_LEN := by
    split <;> omega
  have hpos : ¬ (s.buff_len > 0) := by omega
  have hres : (copy_from_user s.message ubuf (min len BUF_LEN)).2 ≠ 0 := by
    simp only [copy_from_user]; omega
  unfold device_write
  simp only [hm, hpos, hres]
  simp [hres]

theorem device_read_not_ok {s : State} {file ucap len : Nat} {nonblock sig : Bool}
    {r : Result} (h0 : 0 ≤ s.buff_len) (h1 : s.buff_len ≤ BUF_LEN)
    (he : device_read s file ucap len nonblock sig = some r) (hno : r.out.ok = false) :
    r.state = s := by
  cases hctx : find_ctx s.reader_list file with
  | none => simp [device_read, hctx] at he
  | some ctx =>
    cases sig with
    | true =>
      simp only [device_read, hctx, if_true] at he
      injection he with he
      subst he
      rfl
    | false =>
      by_cases hel : s.buff_len = 0 ∨ ctx.has_read = true
      · rw [device_read_blocked s file ucap len nonblock ctx hctx hel] at he
        injection he with he
        subst he
        rfl
      · push_neg at hel
        have hflag : ctx.has_read = false := by simpa using hel.2
        rw [device_read_go s file ucap len nonblock ctx hctx hel.1 hflag,
          int_to_size_t_eq h0 h1] at he
        have hle : min len s.buff_len.toNat ≤ BUF_LEN := by simp only [BUF_LEN] at h1 ⊢; omega
        split at he
        · injection he with he
          subst he
          simp only [Outcome.ok, size_t_to_ssize_t_eq hle, decide_eq_false_iff_not] at hno
          omega
        · injection he with he
          subst he
          rfl

theorem device_write_ok (s : State) (ubuf : List Byte) (len : Nat) (nonblock sig : Bool)
    (h : (device_write s ubuf len nonblock sig).out.ok = true) :
    (device_write s ubuf len nonblock sig).state.reader_list
      = reset_all_reader_flags s.reader_list := by
  have hm : (if len > BUF_LEN then BUF_LEN else len) = min len BUF_LEN := by
    split <;> omega
  unfold device_write at h ⊢
  split
  · rename_i h1; simp [h1, Outcome.ok, ERESTARTSYS] at h
  · split
    · rename_i h1 h2
      cases nonblock <;> simp [h1, h2, Outcome.ok, EAGAIN] at h
    · simp only [hm] at h ⊢
      split
      · rename_i h1 h2 h3
        simp [h1, h2, h3, Outcome.ok, EFAULT] at h
      · rfl

theorem find_ctx_list_del_self (d : Nat) (l : List reader_ctx)
    (hnd : (l.map (fun c => c.file)).Nodup) : find_ctx (list_del d l) d = none := by
  rw [list_del_eq_filter d l hnd]
  unfold find_ctx
  rw [List.find?_eq_none]
  intro c hc
  simp only [List.mem_filter] at hc
  simpa using hc.2

/-- A step that is not a successful read through `file` leaves the flag of
`file` clear. -/
theorem exec_unflagged (s : State) (c : Call) (r : Result) (file : Nat) (hinv : s.inv)
    (he : exec s c = some r)
    (hc : ({ call := c, out := r.out } : Event).consume_ok file = false)
    (hf : unflagged s file) : unflagged r.state file := by
  obtain ⟨-, h0, h1, hnd⟩ := hinv
  cases c with
  | subscribe g ok =>
    simp only [exec] at he
    split at he
    · exact absurd he (by simp)
    · injection he with he
      subst he
      cases ok
      · exact hf
      · intro ctx hctx
        by_cases hg : g = file
        · subst hg
          simp [device_open, find_ctx, List.find?_cons] at hctx
          rw [← hctx]
        · have hgb : (g == file) = false := by simpa using hg
          simp only [device_open, find_ctx, List.find?_cons, hgb, Bool.not_true,
            Bool.false_eq_true, if_false] at hctx
          exact hf ctx hctx
  | unsubscribe g =>
    simp only [exec, device_release] at he
    split at he
    · exact absurd he (by simp)
    · injection he with he
      subst he
      intro ctx hctx
      by_cases hg : file = g
      · subst hg
        have := find_ctx_list_del_self file s.reader_list hnd
        simp only [this] at hctx
        exact absurd hctx (by simp)
      · rw [show find_ctx (list_del g s.reader_list) file = find_ctx s.reader_list file from
          find_ctx_list_del g file s.reader_list hg] at hctx
        exact hf ctx hctx
  | consume g ucap len nb sig =>
    simp only [exec] at he
    by_cases hg : g = file
    · subst hg
      have hno : r.out.ok = false := by
        simpa [Event.consume_ok] using hc
      rw [device_read_not_ok h0 h1 he hno]
      exact hf
    · rcases device_read_reader_list he with h | h
      · intro ctx hctx; rw [h] at hctx; exact hf ctx hctx
      · intro ctx hctx
        have hfg : ¬ file = g := fun h => hg h.symm
        rw [h, find_ctx_set_has_read, if_neg hfg] at hctx
        exact hf ctx hctx
  | publish ubuf len nb sig =>
    simp only [exec] at he
    injection he with he
    subst he
    cases hok : (device_write s ubuf len nb sig).out.ok with
    | false =>
      intro ctx hctx
      rw [(device_write_not_ok s ubuf len nb sig hok).1] at hctx
      exact hf ctx hctx
    | true =>
      intro ctx hctx
      rw [device_write_ok s ubuf len nb sig hok, find_ctx_reset] at hctx
      cases hfc : find_ctx s.reader_list file with
      | none => simp [hfc] at hctx
      | some c0 =>
        simp only [hfc, Option.map_some', Option.some.injEq] at hctx
        rw [← hctx]

theorem run_unflagged (file : Nat) (cs : List Call) :
    ∀ (s s' : State) (evs : List Event), s.inv → run s cs = some (s', evs) →
      (∀ e ∈ evs, e.consume_ok file = false) → unflagged s file → unflagged s' file := by
  induction cs with
  | nil =>
    intro s s' evs _ h _ hf
    simp only [run, Option.some.injEq, Prod.mk.injEq] at h
    rw [← h.1]; exact hf
  | cons c cs ih =>
    intro s s' evs hinv h hc hf
    obtain ⟨r, evs', he, hr, rfl⟩ := run_cons h
    exact ih r.state s' evs' (exec_inv s c r hinv he) hr
      (fun e he' => hc e (List.mem_cons_of_mem _ he'))
      (exec_unflagged s c r file hinv he (hc _ (List.mem_cons_self _ _)) hf)

/-- A step that is not a release of `file` keeps `file` registered. -/
theorem exec_registered (s : State) (c : Call) (r : Result) (file : Nat)
    (he : exec s c = some r) (hc : c ≠ .unsubscribe file)
    (hreg : file ∈ files s) : file ∈ files r.state := by
  cases c with
  | subscribe g ok =>
    simp only [exec] at he
    split at he
    · exact absurd he (by simp)
    · injection he with he
      subst he
      cases ok
      · exact hreg
      · have hl : (device_open s g true).state.reader_list
            = { file := g, has_read := false } :: s.reader_list := rfl
        simp only [files, hl, List.map_cons, List.mem_cons]
        exact Or.inr hreg
  | unsubscribe g =>
    have hg : file ≠ g := fun h => hc (by rw [h])
    simp only [exec, device_release] at he
    split at he
    · exact absurd he (by simp)
    · injection he with he
      subst he
      have h1 := (find_ctx_isSome_iff s.reader_list file).2 hreg
      have h2 := find_ctx_list_del g file s.reader_list hg
      exact (find_ctx_isSome_iff _ file).1 (by rw [h2]; exact h1)
  | consume g ucap len nb sig =>
    simp only [exec] at he
    rcases device_read_reader_list he with h | h
    · simp only [files, h]; exact hreg
    · simp only [files, h, files_set_has_read]; exact hreg
  | publish ubuf len nb sig =>
    simp only [exec] at he
    injection he with he
    subst he
    cases hok : (device_write s ubuf len nb sig).out.ok with
    | false =>
      simp only [files, (device_write_not_ok s ubuf len nb sig hok).1]; exact hreg
    | true =>
      simp only [files, device_write_ok s ubuf len nb sig hok, reset_all_reader_flags,
        List.map_map, Function.comp_def]
      exact hreg

theorem run_registered (file : Nat) (cs : List Call) :
    ∀ (s s' : State) (evs : List Event), run s cs = some (s', evs) →
      (∀ e ∈ evs, e.call ≠ .unsubscribe file) → file ∈ files s → file ∈ files s' := by
  induction cs with
  | nil =>
    intro s s' evs h _ hf
    simp only [run, Option.some.injEq, Prod.mk.injEq] at h
    rw [← h.1]; exact hf
  | cons c cs ih =>
    intro s s' evs h hc hf
    obtain ⟨r, evs', he, hr, rfl⟩ := run_cons h
    exact ih r.state s' evs' hr (fun e he' => hc e (List.mem_cons_of_mem _ he'))
      (exec_registered s c r file he (hc _ (List.mem_cons_self _ _)) hf)

theorem fresh_run :
    run (device_write state_AB [104, 105] 2 true false).state fresh_calls
      = some (fresh_end.1, fresh_end.2) := by
  rfl

/-! ## C11 -/

/-- C11 (mid-stream join): a successful `device_open` puts one new context with
`has_read = false` at the head of `reader_list` and leaves `message`,
`buff_len` and every existing context unchanged; and if `buff_len > 0` at that
moment, a non-blocking `device_read` through the new file right afterwards
succeeds and returns the first `min len buff_len` bytes of the message that
was written before the file was opened. -/
theorem mid_stream_join (s : State) (file : Nat) :
    (device_open s file true).out = .ret 0
    ∧ (device_open s file true).state.reader_list
        = { file := file, has_read := false } :: s.reader_list
    ∧ find_ctx (device_open s file true).state.reader_list file
        = some { file := file, has_read := false }
    ∧ (device_open s file true).state.message = s.message
    ∧ (device_open s file true).state.buff_len = s.buff_len
    ∧ (∀ g, g ≠ file →
        find_ctx (device_open s file true).state.reader_list g = find_ctx s.reader_list g)
    ∧ (0 < s.buff_len → s.buff_len ≤ BUF_LEN → s.message.length = BUF_LEN →
        ∀ (ucap len : Nat), min len s.buff_len.toNat ≤ ucap →
        ∃ r, device_read (device_open s file true).state file ucap len true false = some r
          ∧ r.out = .ret ((min len s.buff_len.toNat : Nat) : Int)
          ∧ r.ubuf = s.message.take (min len s.buff_len.toNat)
          ∧ r.ubuf.length = min len s.buff_len.toNat) := by
  have hfind : find_ctx (device_open s file true).state.reader_list file
      = some { file := file, has_read := false } := by
    simp [device_open, find_ctx, List.find?_cons]
  refine ⟨rfl, rfl, hfind, rfl, rfl, ?_, ?_⟩
  · intro g hg
    have hgb : (file == g) = false := by simpa using fun h => hg h.symm
    simp [device_open, find_ctx, List.find?_cons, hgb]
  · intro hlen hcap hmsg ucap len hcopy
    have hne : (device_open s file true).state.buff_len ≠ 0 := by
      show s.buff_len ≠ 0
      omega
    have hsz : int_to_size_t (device_open s file true).state.buff_len = s.buff_len.toNat :=
      int_to_size_t_eq (Int.le_of_lt hlen) hcap
    have hle : min len s.buff_len.toNat ≤ BUF_LEN := by omega
    rw [device_read_go _ file ucap len true _ hfind hne rfl, hsz, if_pos hcopy]
    refine ⟨_, rfl, ?_, rfl, ?_⟩
    · simp only [size_t_to_ssize_t_eq hle]
    · show (s.message.take (min len s.buff_len.toNat)).length = _
      simp only [List.length_take, hmsg]; omega

/-- C11 in Scenario 2: B opens the device after `"x"` was written and reads
that byte. -/
theorem mid_stream_join_witness :
    0 < scenario2_state.buff_len ∧ scenario2_state.buff_len ≤ BUF_LEN
    ∧ scenario2_state.message.length = BUF_LEN
    ∧ min 16 scenario2_state.buff_len.toNat ≤ 16
    ∧ ∃ r, device_read (device_open scenario2_state file_B true).state file_B 16 16 true false
          = some r
        ∧ r.out = .ret 1
        ∧ r.ubuf = scenario2_state.message.take 1 :=
  ⟨by decide, by decide, (reachable_inv _ reachable_scenario2_state).1, by decide,
    ((mid_stream_join scenario2_state file_B).2.2.2.2.2.2 (by decide) (by decide)
      (reachable_inv _ reachable_scenario2_state).1 16 16 (by decide)).imp
      (fun _ h => ⟨h.1, h.2.1, h.2.2.1⟩)⟩

/-! ## C12 -/

/-- C12 as stated fails for `device_write`: the freshly loaded driver gets a
write of 2 bytes of which only the first is readable.  `copy_from_user` stores
that byte in `message` before it faults; the call returns `-EFAULT` and
`message` is no longer what it was. -/
theorem copy_failure_counterexample :
    init.buff_len = 0
    ∧ (device_write init [7] 2 true false).out = .ret (-EFAULT)
    ∧ (device_write init [7] 2 true false).state.message.take 2 = [7, 0]
    ∧ init.message.take 2 = [0, 0]
    ∧ (device_write init [7] 2 true false).state.message ≠ init.message := by
  refine ⟨by decide, by decide, by decide, by decide, ?_⟩
  intro h
  have h2 := congrArg (List.take 2) h
  revert h2
  decide

/-- C12 amended: when the copy of `device_write` faults the call returns
`-EFAULT`, and `buff_len`, `reader_list` and every `has_read` are as before (the
slot is not occupied, no flag is reset, no reader is woken); of `message` the
bytes from `min len BUF_LEN` on are as before, the bytes before that hold what
was readable followed by zeros.  When the copy of `device_read` faults the call
returns `-EFAULT` and the whole state is as before (the reader is not marked,
the slot is not emptied). -/
theorem copy_failure (s : State) :
    (∀ (ubuf : List Byte) (len : Nat) (nonblock : Bool),
        s.buff_len ≤ 0 → ubuf.length < min len BUF_LEN →
        (device_write s ubuf len nonblock false).out = .ret (-EFAULT)
        ∧ (device_write s ubuf len nonblock false).state.buff_len = s.buff_len
        ∧ (device_write s ubuf len nonblock false).state.reader_list = s.reader_list
        ∧ (device_write s ubuf len nonblock false).state.message.drop (min len BUF_LEN)
            = s.message.drop (min len BUF_LEN)
        ∧ (device_write s ubuf len nonblock false).state.message.take (min len BUF_LEN)
            = ubuf ++ List.replicate (min len BUF_LEN - ubuf.length) 0
        ∧ (device_write s ubuf len nonblock false).wake_read = false)
    ∧ (∀ (file ucap len : Nat) (nonblock : Bool) (ctx : reader_ctx),
        find_ctx s.reader_list file = some ctx → ctx.has_read = false → s.buff_len ≠ 0 →
        ucap < min len (int_to_size_t s.buff_len) →
        ∃ r, device_read s file ucap len nonblock false = some r
          ∧ r.out = .ret (-EFAULT) ∧ r.state = s ∧ r.wake_write = false) := by
  constructor
  · intro ubuf len nonblock hempty hfault
    rw [device_write_fault_eq s ubuf len nonblock hempty hfault]
    have hlen : (List.take (min len BUF_LEN) ubuf
        ++ List.replicate (min len BUF_LEN - ubuf.length) (0 : Byte)).length = min len BUF_LEN := by
      simp only [List.length_append, List.length_take, List.length_replicate]; omega
    have htake : List.take (min len BUF_LEN) ubuf = ubuf := List.take_of_length_le (by omega)
    refine ⟨rfl, rfl, rfl, ?_, ?_, rfl⟩
    · show ((copy_from_user s.message ubuf (min len BUF_LEN)).1).drop (min len BUF_LEN) = _
      simp only [copy_from_user]
      exact List.drop_left' hlen
    · show ((copy_from_user s.message ubuf (min len BUF_LEN)).1).take (min len BUF_LEN) = _
      simp only [copy_from_user]
      rw [List.take_left' hlen, htake]
  · intro file ucap len nonblock ctx hctx hflag hne hfault
    rw [device_read_go s file ucap len nonblock ctx hctx hne hflag, if_neg (by omega)]
    exact ⟨_, rfl, rfl, rfl, rfl⟩

/-- C12 amended, at the faulting write above and at a read of `"hi"` into a
one-byte buffer. -/
theorem copy_failure_witness :
    init.buff_len ≤ 0 ∧ ([7] : List Byte).length < min 2 BUF_LEN
    ∧ (device_write init [7] 2 true false).out = .ret (-EFAULT)
    ∧ (device_write init [7] 2 true false).state.buff_len = init.buff_len
    ∧ (device_write init [7] 2 true false).state.reader_list = init.reader_list
    ∧ find_ctx state_AB_hi.reader_list file_A = some { file := file_A, has_read := false }
    ∧ state_AB_hi.buff_len ≠ 0 ∧ 1 < min 16 (int_to_size_t state_AB_hi.buff_len)
    ∧ ∃ r, device_read state_AB_hi file_A 1 16 true false = some r
        ∧ r.out = .ret (-EFAULT) ∧ r.state = state_AB_hi :=
  ⟨by decide, by decide,
    ((copy_failure init).1 [7] 2 true (by decide) (by decide)).1,
    ((copy_failure init).1 [7] 2 true (by decide) (by decide)).2.1,
    ((copy_failure init).1 [7] 2 true (by decide) (by decide)).2.2.1,
    by decide, by decide, by decide,
    ((copy_failure state_AB_hi).2 file_A 1 16 true { file := file_A, has_read := false }
      (by decide) rfl (by decide) (by decide)).imp (fun _ h => ⟨h.1, h.2.1, h.2.2.1⟩)⟩

/-! ## C13 -/

/-- C13 (flag freshness): after a successful `device_write` every registered
context has `has_read = false`; and for a file registered at that write, in
every state reached by further calls none of which is a successful
`device_read` through that file, its context, as long as it is registered,
still has `has_read = false` (and it is registered if the file was not
released). -/
theorem flag_freshness (s0 : State) (ubuf : List Byte) (len : Nat) (nonblock sig : Bool)
    (file : Nat) (cs : List Call) (s' : State) (mid : List Event)
    (hinv : s0.inv) (hreg : file ∈ files s0)
    (hpub : (device_write s0 ubuf len nonblock sig).out.ok = true)
    (hrun : run (device_write s0 ubuf len nonblock sig).state cs = some (s', mid))
    (hnc : ∀ e ∈ mid, e.consume_ok file = false) :
    (∀ c ∈ (device_write s0 ubuf len nonblock sig).state.reader_list, c.has_read = false)
    ∧ (∀ ctx, find_ctx s'.reader_list file = some ctx → ctx.has_read = false)
    ∧ ((∀ e ∈ mid, e.call ≠ .unsubscribe file) →
        ∃ ctx, find_ctx s'.reader_list file = some ctx ∧ ctx.has_read = false) := by
  have hl := device_write_ok s0 ubuf len nonblock sig hpub
  have hall : ∀ c ∈ (device_write s0 ubuf len nonblock sig).state.reader_list,
      c.has_read = false := by
    intro c hc
    rw [hl] at hc
    simp only [reset_all_reader_flags, List.mem_map] at hc
    obtain ⟨d, _, rfl⟩ := hc
    rfl
  have hun : unflagged (device_write s0 ubuf len nonblock sig).state file := by
    intro ctx hctx
    exact hall ctx (find_ctx_some hctx).1
  have hinv1 := device_write_inv s0 ubuf len nonblock sig hinv
  have hfin := run_unflagged file cs _ s' mid hinv1 hrun hnc hun
  refine ⟨hall, hfin, ?_⟩
  intro hnr
  have hreg1 : file ∈ files (device_write s0 ubuf len nonblock sig).state := by
    simp only [files, hl, reset_all_reader_flags, List.map_map, Function.comp_def]
    exact hreg
  have hreg' := run_registered file cs _ s' mid hrun hnr hreg1
  have hsome := (find_ctx_isSome_iff s'.reader_list file).2 hreg'
  obtain ⟨ctx, hctx⟩ := Option.isSome_iff_exists.1 hsome
  exact ⟨ctx, hctx, hfin ctx hctx⟩

/-- C13 after `"hi"` is written: B reads and C opens; A's flag is still clear. -/
theorem flag_freshness_witness :
    file_A ∈ files state_AB
    ∧ (device_write state_AB [104, 105] 2 true false).out.ok = true
    ∧ (∀ e ∈ fresh_end.2, e.consume_ok file_A = false)
    ∧ (∀ e ∈ fresh_end.2, e.call ≠ .unsubscribe file_A)
    ∧ ∃ ctx, find_ctx fresh_end.1.reader_list file_A = some ctx ∧ ctx.has_read = false :=
  ⟨by decide, by decide, by decide, by decide,
    (flag_freshness state_AB [104, 105] 2 true false file_A fresh_calls fresh_end.1 fresh_end.2
      (reachable_inv _ reachable_state_AB) (by decide) (by decide) fresh_run (by decide)).2.2
      (by decide)⟩

/-! ## Lemmas on the empty slot, on pending readers, on set flags -/

/-- While the slot is empty and no write succeeds, it stays empty and no read
succeeds. -/
theorem exec_empty (s : State) (c : Call) (r : Result) (hempty : s.buff_len = 0)
    (he : exec s c = some r)
    (hp : ({ call := c, out := r.out } : Event).publish_ok = false) :
    r.state.buff_len = 0 ∧ ∀ f, ({ call := c, out := r.out } : Event).consume_ok f = false := by
  cases c with
  | subscribe g ok =>
    simp only [exec] at he
    split at he
    · exact absurd he (by simp)
    · injection he with he
      subst he
      refine ⟨?_, fun f => rfl⟩
      cases ok <;> exact hempty
  | unsubscribe g =>
    simp only [exec, device_release] at he
    split at he
    · exact absurd he (by simp)
    · injection he with he
      subst he
      refine ⟨?_, fun f => rfl⟩
      dsimp only
      repeat' split
      all_goals first | rfl | exact hempty
  | consume g ucap len nb sig =>
    simp only [exec] at he
    cases hctx : find_ctx s.reader_list g with
    | none => simp [device_read, hctx] at he
    | some ctx =>
      cases sig with
      | true =>
        simp only [device_read, hctx, if_true] at he
        injection he with he
        subst he
        exact ⟨hempty, fun f => by simp [Event.consume_ok, Outcome.ok, ERESTARTSYS]⟩
      | false =>
        rw [device_read_blocked s g ucap len nb ctx hctx (Or.inl hempty)] at he
        injection he with he
        subst he
        refine ⟨hempty, fun f => ?_⟩
        cases nb <;> simp [Event.consume_ok, Outcome.ok, EAGAIN]
  | publish ubuf len nb sig =>
    simp only [exec] at he
    injection he with he
    subst he
    have hno : (device_write s ubuf len nb sig).out.ok = false := by
      simpa [Event.publish_ok] using hp
    exact ⟨by rw [(device_write_not_ok s ubuf len nb sig hno).2]; exact hempty, fun f => rfl⟩

theorem run_empty (cs : List Call) :
    ∀ (s s' : State) (evs : List Event), s.buff_len = 0 → run s cs = some (s', evs) →
      (∀ e ∈ evs, e.publish_ok = false) →
      s'.buff_len = 0 ∧ ∀ e ∈ evs, ∀ f, e.consume_ok f = false := by
  induction cs with
  | nil =>
    intro s s' evs hempty h _
    simp only [run, Option.some.injEq, Prod.mk.injEq] at h
    rw [← h.1, ← h.2]
    exact ⟨hempty, by simp⟩
  | cons c cs ih =>
    intro s s' evs hempty h hp
    obtain ⟨r, evs', he, hr, rfl⟩ := run_cons h
    have h1 := exec_empty s c r hempty he (hp _ (List.mem_cons_self _ _))
    have h2 := ih r.state s' evs' h1.1 hr (fun e he' => hp e (List.mem_cons_of_mem _ he'))
    refine ⟨h2.1, ?_⟩
    intro e he' f
    rcases List.mem_cons.1 he' with h | h
    · subst h; exact h1.2 f
    · exact h2.2 e h f

theorem pending_count_list_del (d : Nat) (l : List reader_ctx) (ctx : reader_ctx)
    (hctx : find_ctx l d = some ctx) :
    pending_count (list_del d l) + (if ctx.has_read then 0 else 1) = pending_count l := by
  induction l with
  | nil => simp [find_ctx] at hctx
  | cons c l ih =>
    unfold find_ctx at hctx ih
    unfold list_del pending_count at ih ⊢
    by_cases hc : c.file = d
    · simp only [List.find?_cons, hc, beq_self_eq_true, Option.some.injEq] at hctx
      subst hctx
      cases h : c.has_read <;> simp [List.eraseP_cons, hc, List.countP_cons, h]
    · have hcb : (c.file == d) = false := by simpa using hc
      simp only [List.find?_cons, hcb] at hctx
      have := ih hctx
      simp only [List.eraseP_cons, hcb, cond_false, List.countP_cons]
      omega

theorem pending_count_reset (l : List reader_ctx) :
    pending_count (reset_all_reader_flags l) = l.length := by
  simp [pending_count, reset_all_reader_flags, List.countP_eq_length]

/-- What a `device_read` can do to the state. -/
theorem device_read_cases {s : State} {file ucap len : Nat} {nonblock sig : Bool}
    {r : Result} (he : device_read s file ucap len nonblock sig = some r) :
    r.state = s
    ∨ r.state = { s with
        reader_list := set_has_read file s.reader_list,
        buff_len := if consumed_count (set_has_read file s.reader_list)
                        ≥ total_count (set_has_read file s.reader_list) then 0
                    else s.buff_len } := by
  cases hctx : find_ctx s.reader_list file with
  | none => simp [device_read, hctx] at he
  | some ctx =>
    cases sig with
    | true =>
      simp only [device_read, hctx, if_true] at he
      injection he with he
      subst he
      exact Or.inl rfl
    | false =>
      by_cases hel : s.buff_len = 0 ∨ ctx.has_read = true
      · rw [device_read_blocked s file ucap len nonblock ctx hctx hel] at he
        injection he with he
        subst he
        exact Or.inl rfl
      · push_neg at hel
        have hflag : ctx.has_read = false := by simpa using hel.2
        rw [device_read_go s file ucap len nonblock ctx hctx hel.1 hflag] at he
        split at he
        · injection he with he
          subst he
          exact Or.inr rfl
        · injection he with he
          subst he
          exact Or.inl rfl

/-- An occupied slot has a pending reader: preserved by every step the VFS
can issue. -/
theorem exec_drainable (s : State) (c : Call) (r : Result)
    (hvia : c.through_open_file s = true) (he : exec s c = some r)
    (hJ : 0 < s.buff_len → 0 < pending_count s.reader_list) :
    0 < r.state.buff_len → 0 < pending_count r.state.reader_list := by
  cases c with
  | subscribe g ok =>
    simp only [exec] at he
    split at he
    · exact absurd he (by simp)
    · injection he with he
      subst he
      cases ok
      · exact hJ
      · intro _
        show 0 < pending_count ({ file := g, has_read := false } :: s.reader_list)
        simp [pending_count, List.countP_cons]
  | unsubscribe g =>
    simp only [exec] at he
    cases hctx : find_ctx s.reader_list g with
    | none => simp [device_release, hctx] at he
    | some ctx =>
      simp only [device_release, hctx, count_readers_eq] at he
      injection he with he
      subst he
      have hdel := pending_count_list_del g s.reader_list ctx hctx
      have hadd := consumed_add_pending (list_del g s.reader_list)
      dsimp only
      intro hpos
      by_cases hb : 0 < s.buff_len
      · have hp := hJ hb
        cases hr : ctx.has_read with
        | true => simp only [hr, if_true] at hdel; omega
        | false =>
          by_cases hlit : 1 + consumed_count (list_del g s.reader_list)
              ≥ total_count (list_del g s.reader_list)
          · simp [hr, hb, hlit] at hpos
          · omega
      · have hg : (!ctx.has_read && decide (s.buff_len > 0)) = false := by simp [hb]
        simp only [hg, Bool.false_eq_true, if_false] at hpos
        exact absurd hpos hb
  | consume g ucap len nb sig =>
    simp only [exec] at he
    rcases device_read_cases he with h | h
    · rw [h]; exact hJ
    · rw [h]
      dsimp only
      intro hpos
      have hadd := consumed_add_pending (set_has_read g s.reader_list)
      by_cases hall : consumed_count (set_has_read g s.reader_list)
          ≥ total_count (set_has_read g s.reader_list)
      · simp [hall] at hpos
      · omega
  | publish ubuf len nb sig =>
    simp only [exec] at he
    injection he with he
    subst he
    cases hok : (device_write s ubuf len nb sig).out.ok with
    | false =>
      have h := device_write_not_ok s ubuf len nb sig hok
      rw [h.1, h.2]; exact hJ
    | true =>
      intro _
      rw [device_write_ok s ubuf len nb sig hok, pending_count_reset]
      simp only [Call.through_open_file, Bool.not_eq_true', List.isEmpty_eq_false] at hvia
      exact List.length_pos.2 hvia

theorem pending_pos_iff (l : List reader_ctx) :
    0 < pending_count l ↔ ∃ c ∈ l, c.has_read = false := by
  unfold pending_count
  rw [List.countP_pos_iff]
  simp

theorem reachable_file_drainable (s : State) (h : ReachableFile s) :
    0 < s.buff_len → 0 < pending_count s.reader_list := by
  induction h with
  | start => intro h0; exact absurd h0 (by decide)
  | step c _ hvia he ih => exact exec_drainable _ c _ hvia he ih

theorem reachable_file_state_AB_hi : ReachableFile state_AB_hi :=
  ReachableFile.step (.publish [104, 105] 2 true false)
    (ReachableFile.step (.subscribe file_B true)
      (ReachableFile.step (.subscribe file_A true) ReachableFile.start rfl rfl) rfl rfl)
    rfl rfl

/-- While the flag of `file` stays set (no release of `file`, no successful
write), no read through `file` succeeds. -/
theorem run_flagged_no_consume (file : Nat) (cs : List Call) :
    ∀ (s s' : State) (evs : List Event), run s cs = some (s', evs) →
      (∀ e ∈ evs, e.call ≠ .unsubscribe file) → (∀ e ∈ evs, e.publish_ok = false) →
      flagged s file → ∀ e ∈ evs, e.consume_ok file = false := by
  induction cs with
  | nil =>
    intro s s' evs h _ _ _
    simp only [run, Option.some.injEq, Prod.mk.injEq] at h
    rw [← h.2]; simp
  | cons c cs ih =>
    intro s s' evs h hu hp hf
    obtain ⟨r, evs', he, hr, rfl⟩ := run_cons h
    have h1 := exec_flagged s c r file he (hu _ (List.mem_cons_self _ _))
      (hp _ (List.mem_cons_self _ _)) hf
    have h2 := ih r.state s' evs' hr (fun e he' => hu e (List.mem_cons_of_mem _ he'))
      (fun e he' => hp e (List.mem_cons_of_mem _ he')) h1
    intro e he'
    rcases List.mem_cons.1 he' with h | h
    · subst h
      cases c with
      | consume g ucap len nb sig =>
        simp only [Event.consume_ok]
        by_cases hg : g = file
        · subst hg
          simp only [exec] at he
          obtain ⟨q, hq, -, hno, -⟩ := device_read_flagged s g ucap len nb sig hf
          rw [hq] at he
          injection he with he
          subst he
          simp [hno]
        · simp [hg]
      | subscribe _ _ => rfl
      | unsubscribe _ => rfl
      | publish _ _ _ _ => rfl
    · exact h2 e h

/-! ## C15 -/

/-- C15 (departure with one subscriber pending): when `buff_len > 0`, file `d`
has not read, and exactly one remaining context is pending, among them that of
`r`, `device_release` of `d` sets `buff_len` to 0 and wakes the writers
although `r` is still registered with `has_read = false`; `r`'s next
non-blocking `device_read` returns `-EAGAIN`, and in any further run no read
through `r` succeeds before a write succeeds, so `r` never gets that message. -/
theorem departure_loses_message (s : State) (d r : Nat) (cd cr : reader_ctx)
    (hlen : 0 < s.buff_len)
    (hd : find_ctx s.reader_list d = some cd) (hdf : cd.has_read = false)
    (hr : find_ctx s.reader_list r = some cr) (hrd : r ≠ d) (hrf : cr.has_read = false)
    (hone : pending_count (list_del d s.reader_list) = 1) :
    ∃ res, device_release s d = some res
      ∧ res.state.buff_len = 0
      ∧ res.wake_write = true
      ∧ res.state.message = s.message
      ∧ (∃ c, find_ctx res.state.reader_list r = some c ∧ c.has_read = false)
      ∧ (∀ (ucap len : Nat), ∃ q, device_read res.state r ucap len true false = some q
          ∧ q.out = .ret (-EAGAIN) ∧ q.state = res.state)
      ∧ (∀ (cs : List Call) (s' : State) (evs : List Event),
          run res.state cs = some (s', evs) → (∀ e ∈ evs, e.publish_ok = false) →
          ∀ e ∈ evs, e.consume_ok r = false) := by
  have hg : (!cd.has_read && decide (s.buff_len > 0)) = true := by simp [hlen, hdf]
  have hadd := consumed_add_pending (list_del d s.reader_list)
  have hlit : (count_readers 1 (list_del d s.reader_list)).1
      ≥ (count_readers 1 (list_del d s.reader_list)).2 := by
    simp only [count_readers_eq]; omega
  have hrel : device_release s d
      = some { state := { s with reader_list := list_del d s.reader_list, buff_len := 0 },
               out := .ret 0, ubuf := [], wake_read := false, wake_write := true } := by
    unfold device_release
    simp only [hd, hg, if_true, hlit, decide_True]
  have hfr : find_ctx (list_del d s.reader_list) r = some cr :=
    (find_ctx_list_del d r s.reader_list hrd).trans hr
  rw [hrel]
  refine ⟨_, rfl, rfl, rfl, rfl, ⟨cr, hfr, hrf⟩, ?_, ?_⟩
  · intro ucap len
    rw [device_read_blocked _ r ucap len true cr hfr (Or.inl rfl)]
    exact ⟨_, rfl, rfl, rfl⟩
  · intro cs s' evs hrun hp e he
    exact (run_empty cs _ s' evs rfl hrun hp).2 e he r

/-- C15 at its scenario: A and B open, `"m"` is written, B closes. -/
theorem departure_loses_message_witness :
    0 < state_AB_m.buff_len
    ∧ find_ctx state_AB_m.reader_list file_B = some { file := file_B, has_read := false }
    ∧ find_ctx state_AB_m.reader_list file_A = some { file := file_A, has_read := false }
    ∧ pending_count (list_del file_B state_AB_m.reader_list) = 1
    ∧ ∃ res, device_release state_AB_m file_B = some res
        ∧ res.state.buff_len = 0
        ∧ ∃ c, find_ctx res.state.reader_list file_A = some c ∧ c.has_read = false :=
  ⟨by decide, by decide, by decide, by decide,
    (departure_loses_message state_AB_m file_B file_A { file := file_B, has_read := false }
      { file := file_A, has_read := false } (by decide) (by decide) rfl (by decide)
      (by decide) rfl (by decide)).imp (fun _ h => ⟨h.1, h.2.1, h.2.2.2.2.1⟩)⟩

/-! ## C16 -/

/-- C16 (an occupied slot is drainable): in every state reachable from `init`
by opens, releases, reads, and writes issued through an open file,
`buff_len > 0` implies that `reader_list` is not empty and holds a context
with `has_read = false`. -/
theorem occupied_slot_drainable (s : State) (h : ReachableFile s) (hocc : 0 < s.buff_len) :
    s.reader_list ≠ [] ∧ ∃ c ∈ s.reader_list, c.has_read = false := by
  have hp := (pending_pos_iff s.reader_list).1 (reachable_file_drainable s h hocc)
  obtain ⟨c, hc, hf⟩ := hp
  exact ⟨List.ne_nil_of_mem hc, c, hc, hf⟩

/-- C16 at Scenario 1 after the write of `"hi"`. -/
theorem occupied_slot_drainable_witness :
    ReachableFile state_AB_hi ∧ 0 < state_AB_hi.buff_len
    ∧ state_AB_hi.reader_list ≠ [] ∧ ∃ c ∈ state_AB_hi.reader_list, c.has_read = false :=
  ⟨reachable_file_state_AB_hi, by decide,
    occupied_slot_drainable state_AB_hi reachable_file_state_AB_hi (by decide)⟩

/-! ## C17 -/

/-- C17 (a short read consumes the whole message): for an eligible file and
`len < buff_len` (also `len = 0`), a `device_read` whose copy succeeds returns
`len` and only the first `len` bytes of `message`, yet sets the file's
`has_read` and raises `consumed_count` by one, which is what the drain check
compares with `total_count`.  From then on every read through the file fails
and delivers nothing, and in any further run without a release of the file no
read through it succeeds before a write succeeds: the remaining `buff_len -
len` bytes are never handed to it. -/
theorem short_read_consumes (s : State) (file ucap len : Nat) (nonblock : Bool)
    (ctx : reader_ctx) (hmsg : s.message.length = BUF_LEN) (hcap : s.buff_len ≤ BUF_LEN)
    (hshort : (len : Int) < s.buff_len)
    (hctx : find_ctx s.reader_list file = some ctx) (hflag : ctx.has_read = false)
    (hcopy : len ≤ ucap) :
    ∃ r, device_read s file ucap len nonblock false = some r
      ∧ r.out = .ret (len : Int)
      ∧ r.ubuf = s.message.take len
      ∧ r.ubuf.length = len
      ∧ find_ctx r.state.reader_list file = some { file := file, has_read := true }
      ∧ consumed_count r.state.reader_list = consumed_count s.reader_list + 1
      ∧ total_count r.state.reader_list = total_count s.reader_list
      ∧ r.state.buff_len
          = (if consumed_count r.state.reader_list ≥ total_count r.state.reader_list then 0
             else s.buff_len)
      ∧ r.state.message = s.message
      ∧ (∀ (ucap2 len2 : Nat) (nb2 sig2 : Bool),
          ∃ q, device_read r.state file ucap2 len2 nb2 sig2 = some q
            ∧ q.out.ok = false ∧ q.ubuf = [] ∧ q.state = r.state)
      ∧ (∀ (cs : List Call) (s' : State) (evs : List Event),
          run r.state cs = some (s', evs) →
          (∀ e ∈ evs, e.call ≠ .unsubscribe file) → (∀ e ∈ evs, e.publish_ok = false) →
          ∀ e ∈ evs, e.consume_ok file = false) := by
  have hpos : 0 < s.buff_len := by omega
  have hsz := int_to_size_t_eq (Int.le_of_lt hpos) hcap
  have hne : s.buff_len ≠ 0 := by omega
  have hmin : min len s.buff_len.toNat = len := by omega
  have hle : len ≤ BUF_LEN := by omega
  have hfile := (find_ctx_some hctx).2
  have hfind : find_ctx (set_has_read file s.reader_list) file
      = some { file := file, has_read := true } := by
    simp only [find_ctx_set_has_read, hctx, if_true, Option.map_some']
    cases ctx with
    | mk f hr => simp at hfile; simp [hfile]
  rw [device_read_go s file ucap len nonblock ctx hctx hne hflag, hsz, hmin, if_pos hcopy]
  have hfl : flagged ({ s with
      reader_list := set_has_read file s.reader_list,
      buff_len := if consumed_count (set_has_read file s.reader_list)
                      ≥ total_count (set_has_read file s.reader_list) then 0
                  else s.buff_len } : State) file := ⟨_, hfind, rfl⟩
  refine ⟨_, rfl, ?_, rfl, ?_, hfind, ?_, ?_, rfl, rfl, ?_, ?_⟩
  · simp only [size_t_to_ssize_t_eq hle]
  · show (s.message.take len).length = len
    simp only [List.length_take, hmsg]; omega
  · exact consumed_count_set_has_read file s.reader_list ctx hctx hflag
  · exact length_set_has_read file s.reader_list
  · intro ucap2 len2 nb2 sig2
    obtain ⟨cf, hcf, hcfr⟩ := hfl
    cases sig2 with
    | true =>
      simp only [device_read, hcf, if_true]
      exact ⟨_, rfl, by simp [Outcome.ok, ERESTARTSYS], rfl, rfl⟩
    | false =>
      rw [device_read_blocked _ file ucap2 len2 nb2 cf hcf (Or.inr hcfr)]
      refine ⟨_, rfl, ?_, rfl, rfl⟩
      cases nb2 <;> simp [Outcome.ok, EAGAIN]
  · intro cs s' evs hrun hu hp
    exact run_flagged_no_consume file cs _ s' evs hrun hu hp hfl

/-- C17 at a one-byte read of `"hi"` by A. -/
theorem short_read_consumes_witness :
    state_AB_hi.message.length = BUF_LEN ∧ state_AB_hi.buff_len ≤ BUF_LEN
    ∧ ((1 : Nat) : Int) < state_AB_hi.buff_len
    ∧ find_ctx state_AB_hi.reader_list file_A = some { file := file_A, has_read := false }
    ∧ ∃ r, device_read state_AB_hi file_A 1 1 true false = some r
        ∧ r.out = .ret 1
        ∧ r.ubuf = state_AB_hi.message.take 1
        ∧ r.ubuf.length = 1
        ∧ find_ctx r.state.reader_list file_A = some { file := file_A, has_read := true } :=
  ⟨(reachable_inv _ reachable_state_AB_hi).1, by decide, by decide, by decide,
    (short_read_consumes state_AB_hi file_A 1 1 true { file := file_A, has_read := false }
      (reachable_inv _ reachable_state_AB_hi).1 (by decide) (by decide) (by decide) rfl
      (by decide)).imp (fun _ h => ⟨h.1, h.2.1, h.2.2.1, h.2.2.2.1, h.2.2.2.2.1⟩)⟩

/-! ## C18 -/

/-- C18 (zero-length write): on an empty slot a `device_write` of no bytes
returns 0, leaves `buff_len = 0` and `message` as they were, clears every
`has_read` and keeps the registered files; afterwards a non-blocking
`device_read` through any registered file still returns `-EAGAIN` without
changing the state, and a following write of readable data is not blocked: it
succeeds. -/
theorem zero_length_publish (s : State) (nonblock : Bool) (hempty : s.buff_len = 0) :
    (device_write s [] 0 nonblock false).out = .ret 0
    ∧ (device_write s [] 0 nonblock false).state.buff_len = 0
    ∧ (device_write s [] 0 nonblock false).state.message = s.message
    ∧ (∀ c ∈ (device_write s [] 0 nonblock false).state.reader_list, c.has_read = false)
    ∧ files (device_write s [] 0 nonblock false).state = files s
    ∧ (∀ (file ucap len : Nat), file ∈ files s →
        ∃ q, device_read (device_write s [] 0 nonblock false).state file ucap len true false
              = some q
          ∧ q.out = .ret (-EAGAIN)
          ∧ q.state = (device_write s [] 0 nonblock false).state)
    ∧ (∀ (data : List Byte) (nb : Bool),
        (device_write (device_write s [] 0 nonblock false).state data data.length nb false).out
          = .ret ((min data.length BUF_LEN : Nat) : Int)) := by
  have hw : device_write s [] 0 nonblock false
      = { state := { s with buff_len := 0,
                            reader_list := reset_all_reader_flags s.reader_list },
          out := .ret 0, ubuf := [], wake_read := true, wake_write := false } := by
    have := device_write_empty_eq s [] nonblock hempty
    simpa using this
  rw [hw]
  refine ⟨rfl, rfl, rfl, ?_, ?_, ?_, ?_⟩
  · intro c hc
    simp only [reset_all_reader_flags, List.mem_map] at hc
    obtain ⟨d, _, rfl⟩ := hc
    rfl
  · simp [files, reset_all_reader_flags, Function.comp_def]
  · intro file ucap len hreg
    have hsome := (find_ctx_isSome_iff s.reader_list file).2 hreg
    obtain ⟨ctx, hctx⟩ := Option.isSome_iff_exists.1 hsome
    have hf : find_ctx (reset_all_reader_flags s.reader_list) file
        = some { ctx with has_read := false } := by
      rw [find_ctx_reset, hctx]; rfl
    rw [device_read_blocked _ file ucap len true _ hf (Or.inl rfl)]
    exact ⟨_, rfl, rfl, rfl⟩
  · intro data nb
    rw [device_write_empty_eq _ data nb rfl]

/-- C18 with A and B registered. -/
theorem zero_length_publish_witness :
    state_AB.buff_len = 0
    ∧ (device_write state_AB [] 0 true false).out = .ret 0
    ∧ (device_write state_AB [] 0 true false).state.buff_len = 0
    ∧ ∃ q, device_read (device_write state_AB [] 0 true false).state file_A 16 16 true false
            = some q
        ∧ q.out = .ret (-EAGAIN) :=
  ⟨by decide, (zero_length_publish state_AB true (by decide)).1,
    (zero_length_publish state_AB true (by decide)).2.1,
    ((zero_length_publish state_AB true (by decide)).2.2.2.2.2.1 file_A 16 16
      (by decide)).imp (fun _ h => ⟨h.1, h.2.1⟩)⟩

end PubSub
